import Mathlib

/-!
Verification of the AI-Powered ATS Resume Analyzer.

This file gives a shallow embedding, in Lean 4, of the pure computational
core of the repository:

* `utils/text_processor.py`   — `TextProcessor.normalize`, stop words
* `components/score_calculator.py` — `ScoreCalculator.normalize_score`
* `components/keyword_analyzer.py` — `extract_keywords`,
  `find_missing_keywords`, `rank_by_importance` and their helpers
* `components/section_evaluator.py` — `identify_sections`,
  `score_section`, `evaluate_completeness` and the per-section scorers

Modelling conventions:

* Python strings are `List Char`; Python `str.lower` is `Char.toLower`
  mapped over the list (the source only relies on the basic-latin
  fragment).
* Python floats are modelled as exact rationals `ℚ`; the decimal
  literals of the source become the corresponding rationals.
* Python `round` (banker's rounding, round half to even) is `pyRound`.
* Python regular-expression searches are embedded per pattern: for each
  concrete pattern of the source, a Lean function computes exactly
  whether `re.search` succeeds on a given string (restricted to the
  ASCII fragment the source works with).
* The sklearn `TfidfVectorizer` is external third-party code; its output
  (feature names together with tf-idf scores) is passed to
  `extract_keywords` as an explicit argument, universally quantified in
  the theorems, so every proved property holds for every possible
  vectorizer output.
-/

namespace ATS

/-- Characters of a string literal; used to transcribe the Python string
constants of the source. -/
def chars (s : String) : List Char := s.data

/-- Python `str.lower` on one character (basic-latin fragment). -/
def lowerChar (c : Char) : Char := c.toLower

/-- Python `str.lower` over a whole string. -/
def lowerStr (s : List Char) : List Char := s.map lowerChar

/-- Python whitespace class (the ASCII part of regex `\s` and of
`str.strip` / `str.split`): space, tab, newline, carriage return,
vertical tab, form feed. -/
def isPySpace (c : Char) : Bool :=
  c = ' ' || c = '\t' || c = '\n' || c = '\r' || c = '\x0b' || c = '\x0c'

/-- Python regex word character `\w` (ASCII fragment): alphanumeric or
underscore. -/
def isWordChar (c : Char) : Bool := c.isAlphanum || c = '_'

/-- Does `s` start with `p`?  (Python `str.startswith`.) -/
def startsWith : List Char → List Char → Bool
  | _, [] => true
  | [], _ :: _ => false
  | a :: s, b :: p => a == b && startsWith s p

/-- Does `p` occur as a contiguous substring of `s`?  (Python `p in s`.) -/
def containsSub : List Char → List Char → Bool
  | s, p =>
    match s with
    | [] => startsWith [] p
    | _ :: t => startsWith s p || containsSub t p

/-- Python `s.count(p)` for nonempty `p`: number of non-overlapping
occurrences, scanning from the left.  (For empty `p` Python returns
`len(s) + 1`.) -/
def countOccs (s p : List Char) : Nat :=
  if hp : p = [] then s.length + 1
  else
    match s with
    | [] => 0
    | c :: t =>
      if startsWith (c :: t) p then
        1 + countOccs (List.drop p.length (c :: t)) p
      else
        countOccs t p
termination_by s.length
decreasing_by
  · have hp1 : 1 ≤ p.length := by
      cases p with
      | nil => exact absurd rfl hp
      | cons q qs => simp
    simp [List.length_drop]
    omega
  · simp

/-- Helper for `splitWs`: accumulates the current word (reversed). -/
def splitWsAux : List Char → List Char → List (List Char)
  | [], acc => if acc = [] then [] else [acc.reverse]
  | c :: rest, acc =>
    if isPySpace c then
      if acc = [] then splitWsAux rest []
      else acc.reverse :: splitWsAux rest []
    else splitWsAux rest (c :: acc)

/-- Python `str.split()` with no argument: split on runs of whitespace,
discarding empty pieces. -/
def splitWs (s : List Char) : List (List Char) := splitWsAux s []

/-- Python `str.strip()`: remove leading and trailing whitespace. -/
def stripPy (s : List Char) : List Char :=
  ((s.dropWhile isPySpace).reverse.dropWhile isPySpace).reverse

/-- Python `str.split('\n')`: split on newlines, keeping empty pieces. -/
def splitNlAux : List Char → List Char → List (List Char)
  | [], acc => [acc.reverse]
  | c :: rest, acc =>
    if c = '\n' then acc.reverse :: splitNlAux rest []
    else splitNlAux rest (c :: acc)

def splitNl (s : List Char) : List (List Char) := splitNlAux s []

/-! ## utils/text_processor.py -/

/-- `PROFESSIONAL_STOP_WORDS` from `utils/text_processor.py`. -/
def PROFESSIONAL_STOP_WORDS : List (List Char) := List.map chars [
  "a", "an", "the", "and", "or", "but", "in", "on", "at", "to", "for",
  "of", "with", "by", "from", "is", "are", "was", "were", "be", "been",
  "have", "has", "had", "do", "does", "did", "will", "would", "could",
  "should", "may", "might", "shall", "can", "this", "that", "these",
  "those", "i", "we", "you", "he", "she", "it", "they", "our", "your",
  "their", "my", "his", "her", "its", "not", "no", "as", "if", "so",
  "up", "out", "about", "into", "through", "during", "before", "after",
  "above", "below", "between", "each", "all", "both", "few", "more",
  "most", "other", "some", "such", "than", "too", "very", "just",
  "also", "well", "even", "back", "any", "good", "new", "first", "last",
  "long", "great", "little", "own", "right", "big", "high", "different",
  "small", "large", "next", "early", "young", "important", "public",
  "work", "know", "take", "make", "see", "come", "think", "look",
  "want", "give", "use", "find", "tell", "ask", "seem", "feel", "try",
  "leave", "call", "keep", "let", "begin", "show", "hear", "play",
  "run", "move", "live", "believe", "hold", "bring", "happen", "write",
  "provide", "sit", "stand", "lose", "pay", "meet", "include", "continue",
  "set", "learn", "change", "lead", "understand", "watch", "follow",
  "stop", "create", "speak", "read", "spend", "grow", "open", "walk",
  "win", "offer", "remember", "love", "consider", "appear", "buy",
  "wait", "serve", "die", "send", "expect", "build", "stay", "fall",
  "cut", "reach", "kill", "remain", "suggest", "raise", "pass", "sell",
  "require", "report", "decide", "pull", "per", "etc"]

/-- The character keep-class of `TextProcessor.normalize`: the characters
NOT replaced by a space by the substitution of everything outside
word characters, whitespace, and the technical characters plus, hash,
dot, slash. -/
def keepChar (c : Char) : Bool :=
  isWordChar c || isPySpace c || c = '+' || c = '#' || c = '.' || c = '/'

/-- The per-character substitution step of `TextProcessor.normalize`. -/
def replChar (c : Char) : Char := if keepChar c then c else ' '

/-- The whitespace-collapsing substitution of `TextProcessor.normalize`
(each maximal run of whitespace becomes a single space), written as a
state machine whose flag records whether the previous character was part
of a whitespace run. -/
def collapseWsAux : List Char → Bool → List Char
  | [], _ => []
  | c :: rest, prev =>
    if isPySpace c then
      if prev then collapseWsAux rest true else ' ' :: collapseWsAux rest true
    else c :: collapseWsAux rest false

def collapseWs (s : List Char) : List Char := collapseWsAux s false

/-- Embedding of `TextProcessor.normalize`: guard on empty input, then
lowercase, replace every character outside the keep-class by a space,
collapse whitespace runs, and strip. -/
def normalize (text : List Char) : List Char :=
  if text = [] then []
  else stripPy (collapseWs (((text.map lowerChar)).map replChar))

/-! ### Auxiliary facts for the normalization pipeline -/

theorem toNat_ofNat_small {n : Nat} (h : n < 55296) : (Char.ofNat n).toNat = n := by
  have hv : n.isValidChar := Or.inl h
  rw [Char.ofNat, dif_pos hv]
  simp [Char.ofNatAux, Char.toNat, UInt32.toNat]

theorem lowerChar_idem (c : Char) : lowerChar (lowerChar c) = lowerChar c := by
  unfold lowerChar Char.toLower
  by_cases h : c.toNat ≥ 65 ∧ c.toNat ≤ 90
  · rw [if_pos h]
    have h97 : (Char.ofNat (c.toNat + 32)).toNat = c.toNat + 32 :=
      toNat_ofNat_small (by omega)
    rw [if_neg (by rw [h97]; omega)]
  · rw [if_neg h, if_neg h]

theorem replChar_idem (c : Char) : replChar (replChar c) = replChar c := by
  unfold replChar
  by_cases h : keepChar c = true
  · simp [h]
  · simp [h]

theorem lowerChar_replChar (c : Char) (hc : lowerChar c = c) :
    lowerChar (replChar c) = replChar c := by
  unfold replChar
  by_cases h : keepChar c = true
  · simp [h, hc]
  · simp only [h, if_false, Bool.false_eq_true]
    decide

/-! Equation lemmas for `collapseWsAux`. -/

theorem collapseWsAux_nil (b : Bool) : collapseWsAux [] b = [] := rfl

theorem collapseWsAux_cons_ws_true {c : Char} (rest : List Char)
    (h : isPySpace c = true) :
    collapseWsAux (c :: rest) true = collapseWsAux rest true := by
  simp [collapseWsAux, h]

theorem collapseWsAux_cons_ws_false {c : Char} (rest : List Char)
    (h : isPySpace c = true) :
    collapseWsAux (c :: rest) false = ' ' :: collapseWsAux rest true := by
  simp [collapseWsAux, h]

theorem collapseWsAux_cons_nws {c : Char} (rest : List Char) (b : Bool)
    (h : isPySpace c = false) :
    collapseWsAux (c :: rest) b = c :: collapseWsAux rest false := by
  simp [collapseWsAux, h]

/-- Characters in the output of the whitespace collapse come from the input
or are the space character. -/
theorem mem_collapseWsAux :
    ∀ (s : List Char) (b : Bool) (c : Char), c ∈ collapseWsAux s b → c ∈ s ∨ c = ' '
  | [], _, _, h => by simp [collapseWsAux_nil] at h
  | d :: rest, b, c, h => by
    by_cases hd : isPySpace d = true
    · cases b with
      | true =>
        rw [collapseWsAux_cons_ws_true rest hd] at h
        rcases mem_collapseWsAux rest true c h with h' | h'
        exacts [Or.inl (List.mem_cons_of_mem _ h'), Or.inr h']
      | false =>
        rw [collapseWsAux_cons_ws_false rest hd] at h
        rcases List.mem_cons.mp h with h' | h'
        · exact Or.inr h'
        · rcases mem_collapseWsAux rest true c h' with h'' | h''
          exacts [Or.inl (List.mem_cons_of_mem _ h''), Or.inr h'']
    · rw [collapseWsAux_cons_nws rest b (by simpa using hd)] at h
      rcases List.mem_cons.mp h with h' | h'
      · exact Or.inl (h' ▸ List.mem_cons_self _ _)
      · rcases mem_collapseWsAux rest false c h' with h'' | h''
        exacts [Or.inl (List.mem_cons_of_mem _ h''), Or.inr h'']

/-- Every whitespace character in the output of the collapse is a plain
space. -/
theorem space_collapseWsAux :
    ∀ (s : List Char) (b : Bool) (c : Char),
      c ∈ collapseWsAux s b → isPySpace c = true → c = ' '
  | [], _, _, h, _ => by simp [collapseWsAux_nil] at h
  | d :: rest, b, c, h, hws => by
    by_cases hd : isPySpace d = true
    · cases b with
      | true =>
        rw [collapseWsAux_cons_ws_true rest hd] at h
        exact space_collapseWsAux rest true c h hws
      | false =>
        rw [collapseWsAux_cons_ws_false rest hd] at h
        rcases List.mem_cons.mp h with h' | h'
        · exact h'
        · exact space_collapseWsAux rest true c h' hws
    · rw [collapseWsAux_cons_nws rest b (by simpa using hd)] at h
      rcases List.mem_cons.mp h with h' | h'
      · subst h'; exact absurd hws (by simpa using hd)
      · exact space_collapseWsAux rest false c h' hws

/-- No two adjacent whitespace characters. -/
def pairOk (a b : Char) : Bool := !(isPySpace a && isPySpace b)

def wsSep : List Char → Bool
  | [] => true
  | [_] => true
  | a :: b :: rest => pairOk a b && wsSep (b :: rest)

/-- The head, if any, is not whitespace. -/
def noWsHead : List Char → Bool
  | [] => true
  | c :: _ => !isPySpace c

theorem wsSep_cons_cons (a b : Char) (t : List Char) :
    wsSep (a :: b :: t) = (pairOk a b && wsSep (b :: t)) := rfl

theorem wsSep_tail : ∀ {a : Char} {l : List Char}, wsSep (a :: l) = true → wsSep l = true := by
  intro a l h
  cases l with
  | nil => rfl
  | cons b t =>
    rw [wsSep_cons_cons] at h
    simp only [Bool.and_eq_true] at h
    exact h.2

theorem pairOk_comm (a b : Char) : pairOk a b = pairOk b a := by
  simp [pairOk, Bool.and_comm]

theorem wsSep_cons_of_head (a : Char) (l : List Char)
    (h1 : wsSep l = true) (h2 : isPySpace a = false ∨ noWsHead l = true) :
    wsSep (a :: l) = true := by
  cases l with
  | nil => rfl
  | cons b t =>
    have hpair : pairOk a b = true := by
      simp only [pairOk, Bool.not_eq_true', Bool.and_eq_false_iff]
      rcases h2 with h2 | h2
      · exact Or.inl h2
      · right
        simpa [noWsHead] using h2
    rw [wsSep_cons_cons]
    simp [hpair, h1]

/-- The collapse output never has two adjacent whitespace characters, and
with the flag set it starts with a non-whitespace character. -/
theorem wsSep_collapseWsAux :
    ∀ (s : List Char) (b : Bool),
      wsSep (collapseWsAux s b) = true ∧
      (b = true → noWsHead (collapseWsAux s b) = true)
  | [], b => ⟨rfl, fun _ => rfl⟩
  | d :: rest, b => by
    by_cases hd : isPySpace d = true
    · cases b with
      | true =>
        rw [collapseWsAux_cons_ws_true rest hd]
        exact ⟨(wsSep_collapseWsAux rest true).1,
               fun _ => (wsSep_collapseWsAux rest true).2 rfl⟩
      | false =>
        rw [collapseWsAux_cons_ws_false rest hd]
        refine ⟨?_, fun h => by cases h⟩
        exact wsSep_cons_of_head _ _ (wsSep_collapseWsAux rest true).1
          (Or.inr ((wsSep_collapseWsAux rest true).2 rfl))
    · rw [collapseWsAux_cons_nws rest b (by simpa using hd)]
      refine ⟨?_, fun _ => ?_⟩
      · exact wsSep_cons_of_head _ _ (wsSep_collapseWsAux rest false).1
          (Or.inl (by simpa using hd))
      · simpa [noWsHead] using hd

/-- On a list whose whitespace is already normalized (single spaces, never
adjacent), the collapse is the identity. -/
theorem collapseWsAux_fix :
    ∀ (l : List Char),
      (∀ c ∈ l, isPySpace c = true → c = ' ') → wsSep l = true →
      collapseWsAux l false = l ∧ (noWsHead l = true → collapseWsAux l true = l)
  | [], _, _ => ⟨rfl, fun _ => rfl⟩
  | d :: rest, hsp, hsep => by
    have hsp' : ∀ c ∈ rest, isPySpace c = true → c = ' ' :=
      fun c hc => hsp c (List.mem_cons_of_mem _ hc)
    have hsep' : wsSep rest = true := wsSep_tail hsep
    by_cases hd : isPySpace d = true
    · have hd' : d = ' ' := hsp d (List.mem_cons_self _ _) hd
      have hrest : noWsHead rest = true := by
        cases rest with
        | nil => rfl
        | cons b t =>
          rw [wsSep_cons_cons] at hsep
          simp only [Bool.and_eq_true] at hsep
          have hp := hsep.1
          simp only [pairOk, Bool.not_eq_true', Bool.and_eq_false_iff] at hp
          rcases hp with hp | hp
          · exact absurd hd (by simp [hp])
          · simp [noWsHead, hp]
      refine ⟨?_, fun hhead => ?_⟩
      · rw [collapseWsAux_cons_ws_false rest hd,
            (collapseWsAux_fix rest hsp' hsep').2 hrest, hd']
      · exact absurd hhead (by simp [noWsHead, hd])
    · have hd0 : isPySpace d = false := by simpa using hd
      refine ⟨?_, fun _ => ?_⟩ <;>
        rw [collapseWsAux_cons_nws rest _ hd0, (collapseWsAux_fix rest hsp' hsep').1]

theorem wsSep_dropWhile (p : Char → Bool) :
    ∀ (l : List Char), wsSep l = true → wsSep (l.dropWhile p) = true
  | [], _ => rfl
  | c :: rest, h => by
    by_cases hc : p c = true
    · rw [List.dropWhile_cons_of_pos hc]
      exact wsSep_dropWhile p rest (wsSep_tail h)
    · rw [List.dropWhile_cons_of_neg (by simpa using hc)]
      exact h

theorem wsSep_append_one :
    ∀ (l : List Char) (c : Char), wsSep l = true →
      (∀ d, l.getLast? = some d → pairOk d c = true) → wsSep (l ++ [c]) = true
  | [], c, _, _ => rfl
  | [a], c, _, hlast => by
    have hp : pairOk a c = true := hlast a rfl
    simpa [wsSep_cons_cons, wsSep] using hp
  | a :: b :: rest, c, h, hlast => by
    rw [wsSep_cons_cons] at h
    simp only [Bool.and_eq_true] at h
    have ih := wsSep_append_one (b :: rest) c h.2
      (fun d hd => hlast d (by rw [List.getLast?_cons_cons]; exact hd))
    rw [List.cons_append] at ih ⊢
    rw [List.cons_append, wsSep_cons_cons]
    simp only [Bool.and_eq_true]
    exact ⟨h.1, ih⟩

theorem wsSep_reverse :
    ∀ (l : List Char), wsSep l = true → wsSep l.reverse = true
  | [], _ => rfl
  | a :: rest, h => by
    rw [List.reverse_cons]
    apply wsSep_append_one _ _ (wsSep_reverse rest (wsSep_tail h))
    intro d hd
    rw [List.getLast?_reverse] at hd
    cases rest with
    | nil => simp at hd
    | cons b t =>
      have hb : b = d := by simpa using hd
      rw [← hb, pairOk_comm]
      rw [wsSep_cons_cons] at h
      simp only [Bool.and_eq_true] at h
      exact h.1

theorem wsSep_stripPy (l : List Char) (h : wsSep l = true) :
    wsSep (stripPy l) = true := by
  unfold stripPy
  exact wsSep_reverse _ (wsSep_dropWhile _ _ (wsSep_reverse _ (wsSep_dropWhile _ _ h)))

theorem stripPy_sublist (s : List Char) : List.Sublist (stripPy s) s := by
  unfold stripPy
  have h1 : List.Sublist (s.dropWhile isPySpace) s := (List.dropWhile_suffix _).sublist
  have h2 : List.Sublist ((s.dropWhile isPySpace).reverse.dropWhile isPySpace)
      (s.dropWhile isPySpace).reverse := (List.dropWhile_suffix _).sublist
  have h3 := h2.reverse
  rw [List.reverse_reverse] at h3
  exact h3.trans h1

/-- The stripped list neither starts nor ends with whitespace. -/
theorem stripPy_noWs (v : List Char) :
    noWsHead (stripPy v) = true ∧ noWsHead (stripPy v).reverse = true := by
  unfold stripPy
  constructor
  · cases hz : ((v.dropWhile isPySpace).reverse.dropWhile isPySpace).reverse with
    | nil => rfl
    | cons c z' =>
      obtain ⟨t, ht⟩ := List.dropWhile_suffix (l := (v.dropWhile isPySpace).reverse) isPySpace
      have hu1 : v.dropWhile isPySpace =
          ((v.dropWhile isPySpace).reverse.dropWhile isPySpace).reverse ++ t.reverse := by
        have h := congrArg List.reverse ht
        simpa using h.symm
      have hhead : (v.dropWhile isPySpace).head? = some c := by
        rw [hu1, hz]
        simp
      have hnp := List.head?_dropWhile_not isPySpace v
      rw [hhead] at hnp
      simp only [noWsHead, hz]
      simpa using hnp
  · rw [List.reverse_reverse]
    cases hz : (v.dropWhile isPySpace).reverse.dropWhile isPySpace with
    | nil => rfl
    | cons c z' =>
      have hnp := List.head?_dropWhile_not isPySpace (v.dropWhile isPySpace).reverse
      rw [hz] at hnp
      simp only [List.head?_cons] at hnp
      simp only [noWsHead]
      simpa using hnp

/-- A list that neither starts nor ends with whitespace is fixed by
`stripPy`. -/
theorem stripPy_fix (l : List Char)
    (h1 : noWsHead l = true) (h2 : noWsHead l.reverse = true) :
    stripPy l = l := by
  unfold stripPy
  have e1 : l.dropWhile isPySpace = l := by
    cases l with
    | nil => rfl
    | cons c t =>
      simp only [noWsHead] at h1
      exact List.dropWhile_cons_of_neg (by simpa using h1)
  rw [e1]
  have e2 : l.reverse.dropWhile isPySpace = l.reverse := by
    cases hr : l.reverse with
    | nil => rfl
    | cons c t =>
      rw [hr] at h2
      simp only [noWsHead] at h2
      exact List.dropWhile_cons_of_neg (by simpa using h2)
  rw [e2, List.reverse_reverse]

theorem lowerChar_of_space {c : Char} (h : isPySpace c = true) : lowerChar c = c := by
  simp only [isPySpace, Bool.or_eq_true, decide_eq_true_eq] at h
  rcases h with ((((h | h) | h) | h) | h) | h <;> subst h <;> decide

theorem replChar_of_space {c : Char} (h : isPySpace c = true) : replChar c = c := by
  unfold replChar
  rw [if_pos (by simp [keepChar, h])]

theorem collapseWsAux_allws :
    ∀ (s : List Char), (∀ c ∈ s, isPySpace c = true) → collapseWsAux s true = []
  | [], _ => rfl
  | c :: rest, h => by
    rw [collapseWsAux_cons_ws_true rest (h c (List.mem_cons_self _ _))]
    exact collapseWsAux_allws rest (fun d hd => h d (List.mem_cons_of_mem _ hd))

/-- Characters of the normalize output are fixed by lowercasing and by the
character substitution. -/
theorem normalize_chars_fixed (x : List Char) :
    ∀ c ∈ normalize x, lowerChar c = c ∧ replChar c = c := by
  intro c hc
  unfold normalize at hc
  by_cases hx : x = []
  · simp [hx] at hc
  · rw [if_neg hx] at hc
    have hc2 : c ∈ collapseWs ((x.map lowerChar).map replChar) :=
      (stripPy_sublist _).mem hc
    rcases mem_collapseWsAux _ _ _ hc2 with h | h
    · simp only [List.mem_map] at h
      obtain ⟨c₁, ⟨c₀, _, hlow⟩, hrepl⟩ := h
      subst hrepl
      subst hlow
      exact ⟨lowerChar_replChar _ (lowerChar_idem c₀), replChar_idem _⟩
    · subst h
      constructor <;> decide

/-- C8: `TextProcessor.normalize` is idempotent — `normalize (normalize x) =
normalize x` for every string `x` — and every whitespace-only (in
particular, every empty) input normalizes to the empty string. -/
theorem C8_normalize_idempotent :
    (∀ x : List Char, normalize (normalize x) = normalize x) ∧
    (∀ x : List Char, (∀ c ∈ x, isPySpace c = true) → normalize x = []) := by
  constructor
  · intro x
    by_cases hz : normalize x = []
    · rw [hz]; rfl
    · have hx : x ≠ [] := by
        intro h
        exact hz (by rw [h]; rfl)
      have hveq : normalize x =
          stripPy (collapseWs ((x.map lowerChar).map replChar)) := by
        rw [normalize, if_neg hx]
      have hfix := normalize_chars_fixed x
      have h1 : (normalize x).map lowerChar = normalize x := by
        conv_rhs => rw [← List.map_id (normalize x)]
        exact List.map_congr_left (fun a ha => (hfix a ha).1)
      have h2 : (normalize x).map replChar = normalize x := by
        conv_rhs => rw [← List.map_id (normalize x)]
        exact List.map_congr_left (fun a ha => (hfix a ha).2)
      have hsp : ∀ c ∈ normalize x, isPySpace c = true → c = ' ' := by
        intro c hc
        rw [hveq] at hc
        exact space_collapseWsAux _ _ _ ((stripPy_sublist _).mem hc)
      have hsep : wsSep (normalize x) = true := by
        rw [hveq]
        exact wsSep_stripPy _ (wsSep_collapseWsAux _ _).1
      have hnws := stripPy_noWs (collapseWs ((x.map lowerChar).map replChar))
      rw [← hveq] at hnws
      calc normalize (normalize x)
          = stripPy (collapseWs (((normalize x).map lowerChar).map replChar)) := by
            rw [normalize, if_neg hz]
        _ = stripPy (collapseWs (normalize x)) := by rw [h1, h2]
        _ = stripPy (normalize x) := by
            rw [show collapseWs (normalize x) = normalize x from
              (collapseWsAux_fix _ hsp hsep).1]
        _ = normalize x := stripPy_fix _ hnws.1 hnws.2
  · intro x hws
    by_cases hx : x = []
    · rw [hx]; rfl
    · rw [normalize, if_neg hx]
      have h1 : x.map lowerChar = x := by
        conv_rhs => rw [← List.map_id x]
        exact List.map_congr_left (fun a ha => lowerChar_of_space (hws a ha))
      have h2 : x.map replChar = x := by
        conv_rhs => rw [← List.map_id x]
        exact List.map_congr_left (fun a ha => replChar_of_space (hws a ha))
      rw [h1, h2]
      cases x with
      | nil => exact absurd rfl hx
      | cons c rest =>
        rw [show collapseWs (c :: rest) = ' ' :: collapseWsAux rest true from
            collapseWsAux_cons_ws_false rest (hws c (List.mem_cons_self _ _)),
          collapseWsAux_allws rest (fun d hd => hws d (List.mem_cons_of_mem _ hd))]
        decide

/-- Witness for C8: a concrete whitespace-only input normalizes to the
empty string. -/
theorem C8_witness : normalize (chars " \t  ") = [] :=
  C8_normalize_idempotent.2 (chars " \t  ") (by decide)

/-! ## components/score_calculator.py -/

/-- Python `round` on a rational: round half to even (banker's rounding). -/
def pyRound (q : ℚ) : ℤ :=
  if q - ⌊q⌋ < 1/2 then ⌊q⌋
  else if 1/2 < q - ⌊q⌋ then ⌊q⌋ + 1
  else if 2 ∣ ⌊q⌋ then ⌊q⌋ else ⌊q⌋ + 1

/-- The calibrated thresholds of `ScoreCalculator` (`0.05`, `0.12`, `0.22`,
`0.32` in the source, taken as exact rationals). -/
def LOW_THRESHOLD : ℚ := 5/100
def MID_THRESHOLD : ℚ := 12/100
def HIGH_THRESHOLD : ℚ := 22/100
def TOP_THRESHOLD : ℚ := 32/100

/-- The piecewise-linear mapping inside `ScoreCalculator.normalize_score`,
before rounding and clamping (the value bound to `normalized` in the
source). -/
def normalizedRaw (similarity : ℚ) : ℚ :=
  if similarity ≤ LOW_THRESHOLD then
    similarity / LOW_THRESHOLD * 35
  else if similarity ≤ MID_THRESHOLD then
    35 + (similarity - LOW_THRESHOLD) / (MID_THRESHOLD - LOW_THRESHOLD) * 20
  else if similarity ≤ HIGH_THRESHOLD then
    55 + (similarity - MID_THRESHOLD) / (HIGH_THRESHOLD - MID_THRESHOLD) * 20
  else if similarity ≤ TOP_THRESHOLD then
    75 + (similarity - HIGH_THRESHOLD) / (TOP_THRESHOLD - HIGH_THRESHOLD) * 15
  else
    90 + min ((similarity - TOP_THRESHOLD) / (1/10) * 10) 10

/-- Embedding of `ScoreCalculator.normalize_score`:
`min(100, max(0, int(round(normalized))))`. -/
def normalize_score (similarity : ℚ) : ℤ :=
  min 100 (max 0 (pyRound (normalizedRaw similarity)))

/-- The five bands of `normalize_score`, written out separately (one per
branch of the source), used to state continuity at the band boundaries. -/
def scoreBand0 (s : ℚ) : ℚ := s / LOW_THRESHOLD * 35
def scoreBand1 (s : ℚ) : ℚ :=
  35 + (s - LOW_THRESHOLD) / (MID_THRESHOLD - LOW_THRESHOLD) * 20
def scoreBand2 (s : ℚ) : ℚ :=
  55 + (s - MID_THRESHOLD) / (HIGH_THRESHOLD - MID_THRESHOLD) * 20
def scoreBand3 (s : ℚ) : ℚ :=
  75 + (s - HIGH_THRESHOLD) / (TOP_THRESHOLD - HIGH_THRESHOLD) * 15
def scoreBand4 (s : ℚ) : ℚ := 90 + min ((s - TOP_THRESHOLD) / (1/10) * 10) 10

theorem pyRound_ge_floor (q : ℚ) : ⌊q⌋ ≤ pyRound q := by
  unfold pyRound
  split_ifs <;> omega

theorem pyRound_le_floor_add_one (q : ℚ) : pyRound q ≤ ⌊q⌋ + 1 := by
  unfold pyRound
  split_ifs <;> omega

theorem pyRound_mono {x y : ℚ} (h : x ≤ y) : pyRound x ≤ pyRound y := by
  rcases eq_or_lt_of_le h with rfl | hlt
  · exact le_refl _
  rcases lt_or_le ⌊x⌋ ⌊y⌋ with hf | hf
  · calc pyRound x ≤ ⌊x⌋ + 1 := pyRound_le_floor_add_one x
      _ ≤ ⌊y⌋ := by omega
      _ ≤ pyRound y := pyRound_ge_floor y
  · have hfe : ⌊x⌋ = ⌊y⌋ := le_antisymm (Int.floor_le_floor h) hf
    rcases lt_or_le (x - ⌊x⌋) (1/2 : ℚ) with h1 | h1
    · have hx : pyRound x = ⌊x⌋ := by unfold pyRound; rw [if_pos h1]
      rw [hx, hfe]
      exact pyRound_ge_floor y
    · have hy2 : (1/2 : ℚ) < y - ⌊y⌋ := by
        rw [← hfe]
        linarith
      have hy : pyRound y = ⌊y⌋ + 1 := by
        unfold pyRound
        rw [if_neg (not_lt.mpr (le_of_lt hy2)), if_pos hy2]
      rw [hy, ← hfe]
      exact pyRound_le_floor_add_one x

theorem pyRound_int (n : ℤ) : pyRound (n : ℚ) = n := by
  unfold pyRound
  rw [Int.floor_intCast]
  rw [if_pos (by norm_num)]

theorem normalize_score_at (q : ℚ) (n : ℤ) (h : normalizedRaw q = (n:ℚ))
    (h2 : 0 ≤ n) (h3 : n ≤ 100) : normalize_score q = n := by
  unfold normalize_score
  rw [h, pyRound_int, max_eq_right h2, min_eq_right h3]

theorem normalizedRaw_mono {x y : ℚ} (h : x ≤ y) :
    normalizedRaw x ≤ normalizedRaw y := by
  have e0 : ∀ z : ℚ, z / (5/100) * 35 = 700 * z := fun z => by ring
  have e1 : ∀ z : ℚ, 35 + (z - 5/100) / (12/100 - 5/100) * 20 =
      35 + 2000/7 * (z - 5/100) := fun z => by ring
  have e2 : ∀ z : ℚ, 55 + (z - 12/100) / (22/100 - 12/100) * 20 =
      55 + 200 * (z - 12/100) := fun z => by ring
  have e3 : ∀ z : ℚ, 75 + (z - 22/100) / (32/100 - 22/100) * 15 =
      75 + 150 * (z - 22/100) := fun z => by ring
  have e4 : ∀ z : ℚ, (z - 32/100) / (1/10) * 10 = (z - 32/100) * 100 :=
    fun z => by ring
  unfold normalizedRaw LOW_THRESHOLD MID_THRESHOLD HIGH_THRESHOLD TOP_THRESHOLD
  simp only [e0, e1, e2, e3, e4]
  split_ifs
  all_goals try linarith
  all_goals try
    exact add_le_add_left
      (min_le_min (by linarith : (x - 32/100) * 100 ≤ (y - 32/100) * 100)
        (le_refl (10:ℚ))) 90
  all_goals
    have hmin : (0:ℚ) ≤ min ((y - 32/100) * 100) 10 := le_min (by linarith) (by norm_num)
  all_goals linarith

theorem normalize_score_mono {x y : ℚ} (h : x ≤ y) :
    normalize_score x ≤ normalize_score y := by
  unfold normalize_score
  exact min_le_min (le_refl _)
    (max_le_max (le_refl _) (pyRound_mono (normalizedRaw_mono h)))

/-- C1: `normalize_score` maps its input through the four calibrated
piecewise-linear bands (0–0.05 to 0–35, 0.05–0.12 to 35–55, 0.12–0.22 to
55–75, 0.22–0.32 to 75–90, above 0.32 to 90–100 capped), interpolating
linearly by the position of the input within its band, and the result is an
integer clamped to `[0, 100]` after rounding; the band endpoints land on
35, 55, 75, 90, and from 0.42 on the result is capped at 100. -/
theorem C1_normalize_score_bands (s : ℚ) :
    (0 ≤ normalize_score s ∧ normalize_score s ≤ 100) ∧
    (s ≤ LOW_THRESHOLD →
      normalize_score s =
        min 100 (max 0 (pyRound ((s - 0) / (LOW_THRESHOLD - 0) * (35 - 0))))) ∧
    (LOW_THRESHOLD < s → s ≤ MID_THRESHOLD →
      normalize_score s =
        min 100 (max 0 (pyRound (35 +
          (s - LOW_THRESHOLD) / (MID_THRESHOLD - LOW_THRESHOLD) * (55 - 35))))) ∧
    (MID_THRESHOLD < s → s ≤ HIGH_THRESHOLD →
      normalize_score s =
        min 100 (max 0 (pyRound (55 +
          (s - MID_THRESHOLD) / (HIGH_THRESHOLD - MID_THRESHOLD) * (75 - 55))))) ∧
    (HIGH_THRESHOLD < s → s ≤ TOP_THRESHOLD →
      normalize_score s =
        min 100 (max 0 (pyRound (75 +
          (s - HIGH_THRESHOLD) / (TOP_THRESHOLD - HIGH_THRESHOLD) * (90 - 75))))) ∧
    (TOP_THRESHOLD < s →
      normalize_score s =
        min 100 (max 0 (pyRound (90 + min ((s - TOP_THRESHOLD) / (1/10) * 10) 10)))) ∧
    (normalize_score LOW_THRESHOLD = 35 ∧ normalize_score MID_THRESHOLD = 55 ∧
     normalize_score HIGH_THRESHOLD = 75 ∧ normalize_score TOP_THRESHOLD = 90) ∧
    (42/100 ≤ s → normalize_score s = 100) := by
  refine ⟨⟨?_, ?_⟩, ?_, ?_, ?_, ?_, ?_, ⟨?_, ?_, ?_, ?_⟩, ?_⟩
  · exact le_min (by norm_num) (le_max_left 0 _)
  · exact min_le_left _ _
  · intro hs
    have hraw : normalizedRaw s = (s - 0) / (LOW_THRESHOLD - 0) * (35 - 0) := by
      unfold normalizedRaw
      rw [if_pos hs]
      ring
    unfold normalize_score
    rw [hraw]
  · intro h1 h2
    have hraw : normalizedRaw s =
        35 + (s - LOW_THRESHOLD) / (MID_THRESHOLD - LOW_THRESHOLD) * (55 - 35) := by
      unfold normalizedRaw
      rw [if_neg (not_le.mpr h1), if_pos h2]
      ring
    unfold normalize_score
    rw [hraw]
  · intro h1 h2
    have hraw : normalizedRaw s =
        55 + (s - MID_THRESHOLD) / (HIGH_THRESHOLD - MID_THRESHOLD) * (75 - 55) := by
      unfold normalizedRaw
      rw [if_neg (by unfold LOW_THRESHOLD MID_THRESHOLD at *; intro hc; linarith),
          if_neg (not_le.mpr h1), if_pos h2]
      ring
    unfold normalize_score
    rw [hraw]
  · intro h1 h2
    have hraw : normalizedRaw s =
        75 + (s - HIGH_THRESHOLD) / (TOP_THRESHOLD - HIGH_THRESHOLD) * (90 - 75) := by
      unfold normalizedRaw
      rw [if_neg (by unfold LOW_THRESHOLD HIGH_THRESHOLD at *; intro hc; linarith),
          if_neg (by unfold MID_THRESHOLD HIGH_THRESHOLD at *; intro hc; linarith),
          if_neg (not_le.mpr h1), if_pos h2]
      ring
    unfold normalize_score
    rw [hraw]
  · intro h1
    have hraw : normalizedRaw s =
        90 + min ((s - TOP_THRESHOLD) / (1/10) * 10) 10 := by
      unfold normalizedRaw
      rw [if_neg (by unfold LOW_THRESHOLD TOP_THRESHOLD at *; intro hc; linarith),
          if_neg (by unfold MID_THRESHOLD TOP_THRESHOLD at *; intro hc; linarith),
          if_neg (by unfold HIGH_THRESHOLD TOP_THRESHOLD at *; intro hc; linarith),
          if_neg (not_le.mpr h1)]
    unfold normalize_score
    rw [hraw]
  · refine normalize_score_at _ 35 ?_ (by norm_num) (by norm_num)
    unfold normalizedRaw LOW_THRESHOLD
    rw [if_pos (by norm_num)]
    norm_num
  · refine normalize_score_at _ 55 ?_ (by norm_num) (by norm_num)
    unfold normalizedRaw LOW_THRESHOLD MID_THRESHOLD
    rw [if_neg (by norm_num), if_pos (by norm_num)]
    norm_num
  · refine normalize_score_at _ 75 ?_ (by norm_num) (by norm_num)
    unfold normalizedRaw LOW_THRESHOLD MID_THRESHOLD HIGH_THRESHOLD
    rw [if_neg (by norm_num), if_neg (by norm_num), if_pos (by norm_num)]
    norm_num
  · refine normalize_score_at _ 90 ?_ (by norm_num) (by norm_num)
    unfold normalizedRaw LOW_THRESHOLD MID_THRESHOLD HIGH_THRESHOLD TOP_THRESHOLD
    rw [if_neg (by norm_num), if_neg (by norm_num), if_neg (by norm_num),
        if_pos (by norm_num)]
    norm_num
  · intro hs
    have hmin : min ((s - TOP_THRESHOLD) / (1/10) * 10) 10 = 10 := by
      have e : (s - TOP_THRESHOLD) / (1/10) * 10 = (s - 32/100) * 100 := by
        unfold TOP_THRESHOLD
        ring
      rw [e]
      exact min_eq_right (by linarith)
    have hraw : normalizedRaw s = 100 := by
      unfold normalizedRaw
      rw [if_neg (by unfold LOW_THRESHOLD at *; intro hc; linarith),
          if_neg (by unfold MID_THRESHOLD at *; intro hc; linarith),
          if_neg (by unfold HIGH_THRESHOLD at *; intro hc; linarith),
          if_neg (by unfold TOP_THRESHOLD at *; intro hc; linarith)]
      rw [hmin]
      norm_num
    exact normalize_score_at _ 100 (by rw [hraw]; norm_num) (by norm_num) (by norm_num)

/-- Witness for C1 at the concrete similarity 0.10 (second band). -/
theorem C1_witness :
    normalize_score (1/10) =
      min 100 (max 0 (pyRound (35 +
        ((1:ℚ)/10 - LOW_THRESHOLD) / (MID_THRESHOLD - LOW_THRESHOLD) * (55 - 35)))) :=
  (C1_normalize_score_bands (1/10)).2.2.1
    (by unfold LOW_THRESHOLD; norm_num) (by unfold MID_THRESHOLD; norm_num)

/-- C2: `normalize_score` is non-decreasing on the whole `[0, 1]` domain,
and at each band boundary the value computed by the band below equals the
value computed by the band above (no jump discontinuity). -/
theorem C2_normalize_score_monotone_continuous :
    (∀ x y : ℚ, 0 ≤ x → x ≤ y → y ≤ 1 → normalize_score x ≤ normalize_score y) ∧
    (scoreBand0 LOW_THRESHOLD = scoreBand1 LOW_THRESHOLD ∧
     scoreBand1 MID_THRESHOLD = scoreBand2 MID_THRESHOLD ∧
     scoreBand2 HIGH_THRESHOLD = scoreBand3 HIGH_THRESHOLD ∧
     scoreBand3 TOP_THRESHOLD = scoreBand4 TOP_THRESHOLD) := by
  refine ⟨fun x y _ hxy _ => normalize_score_mono hxy, ?_, ?_, ?_, ?_⟩ <;>
    · simp only [scoreBand0, scoreBand1, scoreBand2, scoreBand3, scoreBand4,
        LOW_THRESHOLD, MID_THRESHOLD, HIGH_THRESHOLD, TOP_THRESHOLD]
      norm_num [min_def]

/-- Witness for C2 at the concrete pair 0.10 ≤ 0.20. -/
theorem C2_witness : normalize_score (1/10) ≤ normalize_score (2/10) :=
  C2_normalize_score_monotone_continuous.1 (1/10) (2/10)
    (by norm_num) (by norm_num) (by norm_num)

/-! ## components/keyword_analyzer.py -/

/-- `TECH_TERMS` from `components/keyword_analyzer.py`, in source order (the
Python set literal contains a few repeated entries, which are harmless for
membership tests and are kept verbatim). -/
def TECH_TERMS : List (List Char) := List.map chars [
  "python", "java", "javascript", "typescript", "c++", "c#", "golang", "rust",
  "scala", "kotlin", "swift", "r", "matlab", "bash", "shell",
  "react", "angular", "vue", "nodejs", "django", "flask", "fastapi", "spring",
  "graphql", "rest", "api", "microservices",
  "scikit-learn", "scikit", "pandas", "numpy", "matplotlib", "seaborn",
  "tensorflow", "pytorch", "keras", "mxnet", "jax", "xgboost", "lightgbm",
  "catboost", "huggingface", "transformers", "bert", "gpt", "opencv", "fastai",
  "machine learning", "deep learning", "nlp", "llm", "computer vision",
  "natural language processing", "reinforcement learning",
  "supervised learning", "unsupervised learning", "semi-supervised",
  "classification", "regression", "clustering", "decision tree", "random forest",
  "neural network", "neural networks", "convolutional", "cnn", "rnn", "lstm",
  "transformer", "attention mechanism", "transfer learning",
  "feature engineering", "data preprocessing", "model optimization",
  "hyperparameter tuning", "cross-validation", "dimensionality reduction",
  "time series", "linear algebra", "probability", "statistics",
  "data visualization", "data analysis", "exploratory data analysis", "eda",
  "sql", "nosql", "mongodb", "postgresql", "mysql", "redis", "elasticsearch",
  "bigquery", "hive", "spark sql",
  "spark", "hadoop", "kafka", "airflow", "prefect", "luigi",
  "aws", "azure", "gcp", "sagemaker", "vertex ai", "azure ml",
  "docker", "kubernetes", "ci/cd",
  "git", "github", "gitlab", "jupyter", "colab", "streamlit", "gradio",
  "mlflow", "wandb", "dvc", "dagshub", "databricks",
  "tableau", "powerbi", "looker",
  "sql", "nosql",
  "agile", "scrum", "devops", "version control", "open source",
  "numpy pandas", "pandas scikit", "scikit learn",
  "tensorflow pytorch", "data preprocessing",
  "feature engineering", "model deployment"]

/-- `SOFT_SKILL_TERMS` from `components/keyword_analyzer.py`. -/
def SOFT_SKILL_TERMS : List (List Char) := List.map chars [
  "leadership", "communication", "teamwork", "collaboration", "problem solving",
  "analytical", "creative", "innovative", "organized", "detail oriented",
  "time management", "adaptable", "proactive", "critical thinking",
  "presentation", "negotiation", "mentoring", "cross-functional",
  "stakeholder management", "independent", "self-motivated", "problem-solving"]

/-- `JUNK_WORDS` from `components/keyword_analyzer.py` (repeats kept). -/
def JUNK_WORDS : List (List Char) := List.map chars [
  "bonus", "currently", "pursuing", "recently", "completed", "ideal", "motivated",
  "passionate", "enthusiastic", "eager", "willing", "ready", "able", "capable",
  "seeking", "hire", "hiring", "join", "apply", "responsible", "responsibilities",
  "eligibility", "candidate", "candidates", "required", "requirement", "requirements",
  "preferred", "advantage", "plus", "opportunity", "offer", "certificate", "stipend",
  "salary", "pay", "compensation", "remote", "location", "company", "duration",
  "full", "time", "part", "month", "months", "year", "years", "week", "day",
  "strong", "good", "excellent", "solid", "proficient", "familiar", "familiarity",
  "basic", "advanced", "various", "multiple", "several", "large", "small", "big",
  "new", "current", "future", "past", "previous", "key", "core", "primary", "main",
  "major", "minor", "high", "low", "wide", "deep", "broad", "extensive", "modern",
  "latest", "cutting", "edge", "state", "art", "best", "standard", "practice",
  "write", "writing", "written", "clean", "documented", "document", "following",
  "implement", "explore", "evaluate", "assist", "collaborate", "perform", "design",
  "develop", "build", "create", "work", "understand", "understanding", "knowledge",
  "experience", "exposure", "familiarity", "ability", "skills", "skill", "tool",
  "tools", "platform", "platforms", "framework", "frameworks", "library", "libraries",
  "package", "packages", "language", "languages", "code", "coding", "programming",
  "software", "hardware", "system", "systems", "solution", "solutions", "approach",
  "method", "methods", "technique", "techniques", "algorithm", "algorithms",
  "model", "models", "data", "project", "projects", "team", "teams", "role", "roles",
  "function", "functions", "feature", "features", "aspect", "aspects",
  "including", "using", "across", "within", "between", "based", "focused", "driven",
  "oriented", "related", "specific", "general", "level", "levels", "range",
  "value", "impact", "result", "results", "outcome", "outcomes", "goal", "goals",
  "objective", "objectives", "task", "tasks", "real", "world", "industry",
  "professional", "professionals", "experienced", "live", "production",
  "research", "engineering", "science", "artificial", "intelligence",
  "internship", "intern", "certificate", "upon", "successful", "completion",
  "inficore", "soft", "bonus", "kaggle", "competitions", "github", "contributions",
  "compute", "computing", "distributed", "ranking", "problems", "scale",
  "following", "inference", "deploy", "deploying", "efficient", "efficiency",
  "effective", "effectively", "well", "clean", "written", "documented",
  "exploratory", "optimize", "optimization", "performance", "accuracy"]

/-- `JUNK_BIGRAMS` from `components/keyword_analyzer.py` (repeats kept). -/
def JUNK_BIGRAMS : List (List Char) := List.map chars [
  "documented python", "clean well", "well documented", "bonus experience",
  "bonus kaggle", "ai products", "cloud platforms", "version control",
  "open source", "engineering best", "best practices", "computing frameworks",
  "distributed computing", "large scale", "write clean", "code following",
  "following engineering", "platforms gcp", "ranking problems",
  "using distributed", "optimize model", "engineer intern",
  "software engineer", "exploratory data", "data analysis",
  "code following", "following engineering", "currently pursuing",
  "recently completed", "data scientists", "live ai", "full time",
  "stipend 15", "15 000", "000 month", "per month", "what offer",
  "inficore soft", "artificial intelligence",
  "rank problems", "explore deep", "signal based", "image text"]

/-- The `Keyword` dataclass. -/
structure Keyword where
  term : List Char
  tfidf_score : ℚ
  frequency : Nat
  category : List Char
deriving DecidableEq

/-- The `MissingKeyword` dataclass. -/
structure MissingKeyword where
  term : List Char
  importance_score : ℚ
  category : List Char
  context : List Char
  suggestions : List (List Char)
deriving DecidableEq

/-- The `RankedKeyword` dataclass. -/
structure RankedKeyword where
  term : List Char
  importance_score : ℚ
  category : List Char
  context : List Char
  rank : Nat
  suggestions : List (List Char)
deriving DecidableEq

/-- The regex search for a standalone number, `\b\d+\b`, used by
`_is_junk`: some digit run that starts at a word boundary and whose maximal
extension ends at a word boundary. -/
def hasStandaloneNumber (s : List Char) : Bool :=
  (List.range s.length).any fun i =>
    (s.getD i ' ').isDigit &&
    (i = 0 || !isWordChar (s.getD (i - 1) ' ')) &&
    (let run := ((s.drop i).takeWhile Char.isDigit).length
     (i + run = s.length : Bool) || !isWordChar (s.getD (i + run) ' '))

/-- Embedding of `KeywordAnalyzer._is_junk` (the stop-word set argument is
always `PROFESSIONAL_STOP_WORDS` in the source). -/
def is_junk (term : List Char) : Bool :=
  let t := stripPy (lowerStr term)
  if t.length < 3 then true
  else if JUNK_BIGRAMS.contains t then true
  else
    let words := splitWs t
    if words.all (fun w => PROFESSIONAL_STOP_WORDS.contains w || JUNK_WORDS.contains w) then
      true
    else if hasStandaloneNumber t then true
    else if words.length = 1 && JUNK_WORDS.contains t then true
    else if words.length = 2 then
      if TECH_TERMS.contains t then false
      else if SOFT_SKILL_TERMS.contains t then false
      else true
    else false

/-- Embedding of `KeywordAnalyzer._categorize`. -/
def categorize (term : List Char) : List Char :=
  let t := lowerStr term
  if TECH_TERMS.contains t then chars "technical"
  else if TECH_TERMS.any (fun tech => 5 < tech.length && containsSub t tech) then
    chars "technical"
  else if SOFT_SKILL_TERMS.contains t then chars "soft_skill"
  else if SOFT_SKILL_TERMS.any (fun s => 7 < s.length && containsSub t s) then
    chars "soft_skill"
  else chars "general"

/-- Embedding of `KeywordAnalyzer._context`. -/
def context (cat : List Char) : List Char :=
  if cat = chars "technical" then chars "Add to your Skills or Projects section."
  else if cat = chars "soft_skill" then
    chars "Demonstrate with a concrete example in Experience."
  else if cat = chars "industry_specific" then chars "Add to Summary or Experience."
  else if cat = chars "general" then chars "Add where naturally relevant."
  else chars "Add where relevant."

/-- The ASCII apostrophe used in the f-strings of `_suggestions`. -/
def apos : Char := Char.ofNat 39

/-- Embedding of `KeywordAnalyzer._suggestions`. -/
def suggestions (term cat : List Char) : List (List Char) :=
  if cat = chars "technical" then
    [chars "Add " ++ [apos] ++ term ++ [apos] ++ chars " to your Technical Skills section.",
     chars "Mention " ++ [apos] ++ term ++ [apos] ++ chars " in a project or experience bullet."]
  else if cat = chars "soft_skill" then
    [chars "Show " ++ [apos] ++ term ++ [apos] ++ chars " with a concrete example in your Experience.",
     chars "Use " ++ [apos] ++ term ++ [apos] ++ chars " in your professional summary."]
  else
    [chars "Incorporate " ++ [apos] ++ term ++ [apos] ++ chars " naturally where relevant."]

/-- The per-feature filtering loop of `extract_keywords`: for each
`(term, score)` pair produced by the vectorizer, drop zero scores, junk
terms, bigrams that never occur verbatim in the job description,
non-whitelisted single words occurring fewer than 2 times, and general
bigrams; otherwise build the `Keyword` record. -/
def keywordFilter (job_desc : List Char) (vec : List (List Char × ℚ)) : List Keyword :=
  vec.filterMap fun ts =>
    if ts.2 = 0 then none
    else if is_junk ts.1 then none
    else
      let freq := countOccs (lowerStr job_desc) (lowerStr ts.1)
      let words := splitWs ts.1
      if words.length = 2 ∧ freq = 0 then none
      else
        let cat := categorize ts.1
        if cat = chars "general" ∧ words.length = 1 ∧ freq < 2 then none
        else if words.length = 2 ∧ cat = chars "general" then none
        else some ⟨ts.1, ts.2, freq, cat⟩

/-- The whitelist boost of `extract_keywords`: `*= 2.5` for technical
whitelist terms, `*= 1.5` for soft-skill whitelist terms. -/
def boostKeyword (kw : Keyword) : Keyword :=
  if TECH_TERMS.contains (lowerStr kw.term) then
    { kw with tfidf_score := kw.tfidf_score * (5/2) }
  else if SOFT_SKILL_TERMS.contains (lowerStr kw.term) then
    { kw with tfidf_score := kw.tfidf_score * (3/2) }
  else kw

/-- Embedding of `KeywordAnalyzer.extract_keywords`.  The sklearn
vectorizer output (feature names with their tf-idf scores, in any order)
is the explicit argument `vec`; the guard, the filtering loop, the boost,
the stable descending sort by score and the truncation to 50 are the
source's.  The `try/except` that returns `[]` on vectorizer failure is
subsumed by quantifying over every `vec`, including `[]`. -/
def extract_keywords (job_desc : List Char) (vec : List (List Char × ℚ)) :
    List Keyword :=
  if job_desc = [] ∨ (stripPy job_desc).length < 10 then []
  else
    ((keywordFilter job_desc vec).map boostKeyword).mergeSort
      (fun a b => decide (b.tfidf_score ≤ a.tfidf_score)) |>.take 50

/-- Embedding of `KeywordAnalyzer.find_missing_keywords`. -/
def find_missing_keywords (resume_text : List Char) (job_keywords : List Keyword) :
    List MissingKeyword :=
  if resume_text = [] ∨ job_keywords = [] then []
  else
    let resume_lower := lowerStr resume_text
    job_keywords.filterMap fun kw =>
      let tl := lowerStr kw.term
      if containsSub resume_lower tl then none
      else
        let words := splitWs tl
        let sig := words.filter fun w =>
          3 < w.length && !PROFESSIONAL_STOP_WORDS.contains w && !JUNK_WORDS.contains w
        let out := some (MissingKeyword.mk kw.term
          (kw.tfidf_score * (1 + ((min kw.frequency 5 : Nat) : ℚ) * (15/100)))
          kw.category (context kw.category) (suggestions kw.term kw.category))
        if 1 < words.length then
          if sig ≠ [] ∧ sig.all (fun w => containsSub resume_lower w) = true then none
          else out
        else out

/-- The category boost dictionary of `rank_by_importance` (`.get` default
1.0 for unknown categories). -/
def boost (cat : List Char) : ℚ :=
  if cat = chars "technical" then 2
  else if cat = chars "soft_skill" then 6/5
  else if cat = chars "industry_specific" then 3/2
  else if cat = chars "general" then 3/10
  else 1

/-- The sort key of `rank_by_importance`. -/
def rankKey (kw : MissingKeyword) : ℚ := kw.importance_score * boost kw.category

/-- The accumulation loop of `rank_by_importance`: `gc` is the running
`general_count`, `n` the current length of `result` (so `n + 1` is the rank
handed to the next retained item). -/
def rankLoop : List MissingKeyword → Nat → Nat → List RankedKeyword
  | [], _, _ => []
  | kw :: rest, gc, n =>
    if kw.category = chars "general" then
      if 2 < gc + 1 then rankLoop rest (gc + 1) n
      else
        RankedKeyword.mk kw.term kw.importance_score kw.category kw.context
          (n + 1) kw.suggestions :: rankLoop rest (gc + 1) (n + 1)
    else
      RankedKeyword.mk kw.term kw.importance_score kw.category kw.context
        (n + 1) kw.suggestions :: rankLoop rest gc (n + 1)

/-- Embedding of `KeywordAnalyzer.rank_by_importance`: a stable descending
sort by `importance_score * boost(category)` (Python's `sorted` with
`reverse=True`), followed by the capping/ranking loop. -/
def rank_by_importance (keywords : List MissingKeyword) : List RankedKeyword :=
  rankLoop (keywords.mergeSort (fun a b => decide (rankKey b ≤ rankKey a))) 0 0

/-! ### Claims C10, C3 about `find_missing_keywords` -/

/-- C10: with an empty (falsy) resume text, `find_missing_keywords` returns
the empty list regardless of the job keywords — even a nonempty keyword
list yields no missing keywords. -/
theorem C10_find_missing_empty_resume (kws : List Keyword) (_h : kws ≠ []) :
    find_missing_keywords [] kws = [] := by
  unfold find_missing_keywords
  rw [if_pos (Or.inl rfl)]

/-- Witness for C10 at a concrete nonempty keyword list. -/
theorem C10_witness :
    find_missing_keywords [] [Keyword.mk (chars "python") 1 1 (chars "technical")] = [] :=
  C10_find_missing_empty_resume _ (by simp)

theorem ite_chain_out {α : Type} {c1 c2 : Prop} [Decidable c1] [Decidable c2]
    {out : Option α} {mk : α}
    (h : (if c1 then if c2 then none else out else out) = some mk) : out = some mk := by
  split at h
  · split at h
    · exact absurd h (by simp)
    · exact h
  · exact h

theorem containsSub_nil (p : List Char) : containsSub [] p = startsWith [] p := rfl

theorem containsSub_cons (a : Char) (s p : List Char) :
    containsSub (a :: s) p = (startsWith (a :: s) p || containsSub s p) := rfl

theorem startsWith_map (f : Char → Char) :
    ∀ (s p : List Char), startsWith s p = true → startsWith (s.map f) (p.map f) = true
  | s, [], _ => by cases s <;> rfl
  | [], _ :: _, h => by simp [startsWith] at h
  | a :: s, b :: p, h => by
    simp only [startsWith, Bool.and_eq_true, beq_iff_eq] at h
    simp only [List.map_cons, startsWith, Bool.and_eq_true, beq_iff_eq]
    exact ⟨by rw [h.1], startsWith_map f s p h.2⟩

theorem containsSub_map (f : Char → Char) :
    ∀ (s p : List Char), containsSub s p = true → containsSub (s.map f) (p.map f) = true
  | [], p, h => by
    rw [containsSub_nil] at h
    rw [List.map_nil, containsSub_nil]
    exact startsWith_map f [] p h
  | a :: s, p, h => by
    rw [containsSub_cons] at h
    rw [List.map_cons, containsSub_cons]
    simp only [Bool.or_eq_true] at h ⊢
    rcases h with h | h
    · exact Or.inl (by simpa using startsWith_map f (a :: s) p h)
    · exact Or.inr (containsSub_map f s p h)

/-- C3: every `MissingKeyword` returned by `find_missing_keywords` has a
term whose lowercased form does not occur as a substring of the lowercased
resume text; in particular, a resume containing the literal substring
"aws" never yields a missing keyword with term "aws". -/
theorem C3_missing_keywords_sound :
    (∀ (resume : List Char) (kws : List Keyword) (mk : MissingKeyword),
        mk ∈ find_missing_keywords resume kws →
        containsSub (lowerStr resume) (lowerStr mk.term) = false) ∧
    (∀ (resume : List Char) (kws : List Keyword) (mk : MissingKeyword),
        containsSub resume (chars "aws") = true →
        mk ∈ find_missing_keywords resume kws → mk.term ≠ chars "aws") := by
  have main : ∀ (resume : List Char) (kws : List Keyword) (mk : MissingKeyword),
      mk ∈ find_missing_keywords resume kws →
      containsSub (lowerStr resume) (lowerStr mk.term) = false := by
    intro resume kws mk hmk
    unfold find_missing_keywords at hmk
    split_ifs at hmk with hguard
    · simp at hmk
    · rw [List.mem_filterMap] at hmk
      obtain ⟨kw, _, hf⟩ := hmk
      by_cases hcs : containsSub (lowerStr resume) (lowerStr kw.term) = true
      · rw [if_pos hcs] at hf
        exact absurd hf (by simp)
      · rw [if_neg hcs] at hf
        have hout := ite_chain_out hf
        have hterm : mk.term = kw.term := by
          rw [← Option.some.inj hout]
        rw [hterm]
        simpa using hcs
  refine ⟨main, ?_⟩
  intro resume kws mk hres hmk hterm
  have h1 := main resume kws mk hmk
  rw [hterm] at h1
  have h2 : containsSub (lowerStr resume) (lowerStr (chars "aws")) = true :=
    containsSub_map lowerChar resume (chars "aws") hres
  rw [h1] at h2
  cases h2

/-- Witness for C3: the resume "python developer" with job keyword "aws"
produces a concrete missing keyword, and its term indeed does not occur in
the resume. -/
theorem C3_witness :
    containsSub (lowerStr (chars "python developer")) (lowerStr (chars "aws")) = false := by
  have hmem : (MissingKeyword.mk (chars "aws")
      ((1:ℚ) * (1 + ((min 1 5 : Nat) : ℚ) * (15/100)))
      (chars "technical") (context (chars "technical"))
      (suggestions (chars "aws") (chars "technical"))) ∈
      find_missing_keywords (chars "python developer")
        [Keyword.mk (chars "aws") 1 1 (chars "technical")] := by
    unfold find_missing_keywords
    rw [if_neg (by decide)]
    exact List.mem_filterMap.mpr ⟨_, List.mem_singleton_self _, rfl⟩
  have h := C3_missing_keywords_sound.1 _ _ _ hmem
  simpa using h

/-! ### Claim C4 about `rank_by_importance` -/

/-- The ranking loop never retains more than `2 - gc` further
general-category items. -/
theorem rankLoop_count :
    ∀ (l : List MissingKeyword) (gc n : Nat),
      ((rankLoop l gc n).filter
        (fun r => decide (r.category = chars "general"))).length ≤ 2 - gc
  | [], _, _ => by simp [rankLoop]
  | kw :: rest, gc, n => by
    by_cases hcat : kw.category = chars "general"
    · by_cases hgc : 2 < gc + 1
      · rw [rankLoop, if_pos hcat, if_pos hgc]
        calc ((rankLoop rest (gc+1) n).filter _).length
            ≤ 2 - (gc + 1) := rankLoop_count rest (gc+1) n
          _ ≤ 2 - gc := by omega
      · rw [rankLoop, if_pos hcat, if_neg hgc]
        rw [List.filter_cons_of_pos (by simpa using hcat)]
        simp only [List.length_cons]
        have hrec := rankLoop_count rest (gc+1) (n+1)
        omega
    · rw [rankLoop, if_neg hcat]
      rw [List.filter_cons_of_neg (by simpa using hcat)]
      exact le_trans (rankLoop_count rest gc (n+1)) (le_refl _)

/-- The ranks handed out by the loop are consecutive, starting at `n + 1`. -/
theorem rankLoop_ranks :
    ∀ (l : List MissingKeyword) (gc n : Nat),
      (rankLoop l gc n).map (fun r => r.rank) =
        List.range' (n + 1) (rankLoop l gc n).length
  | [], _, _ => by simp [rankLoop]
  | kw :: rest, gc, n => by
    by_cases hcat : kw.category = chars "general"
    · by_cases hgc : 2 < gc + 1
      · rw [rankLoop, if_pos hcat, if_pos hgc]
        exact rankLoop_ranks rest (gc+1) n
      · rw [rankLoop, if_pos hcat, if_neg hgc]
        simp only [List.map_cons, List.length_cons]
        rw [rankLoop_ranks rest (gc+1) (n+1), List.range'_succ]
    · rw [rankLoop, if_neg hcat]
      simp only [List.map_cons, List.length_cons]
      rw [rankLoop_ranks rest gc (n+1), List.range'_succ]

/-- Every retained item carries the importance score and the category of
some input item. -/
theorem rankLoop_source :
    ∀ (l : List MissingKeyword) (gc n : Nat) (r : RankedKeyword),
      r ∈ rankLoop l gc n →
      ∃ kw, kw ∈ l ∧ r.importance_score = kw.importance_score ∧
        r.category = kw.category
  | [], _, _, r, h => by simp [rankLoop] at h
  | kw :: rest, gc, n, r, h => by
    by_cases hcat : kw.category = chars "general"
    · by_cases hgc : 2 < gc + 1
      · rw [rankLoop, if_pos hcat, if_pos hgc] at h
        obtain ⟨kw', h1, h2⟩ := rankLoop_source rest (gc+1) n r h
        exact ⟨kw', List.mem_cons_of_mem _ h1, h2⟩
      · rw [rankLoop, if_pos hcat, if_neg hgc] at h
        rcases List.mem_cons.mp h with h' | h'
        · exact ⟨kw, List.mem_cons_self _ _, by rw [h'], by rw [h']⟩
        · obtain ⟨kw', h1, h2⟩ := rankLoop_source rest (gc+1) (n+1) r h'
          exact ⟨kw', List.mem_cons_of_mem _ h1, h2⟩
    · rw [rankLoop, if_neg hcat] at h
      rcases List.mem_cons.mp h with h' | h'
      · exact ⟨kw, List.mem_cons_self _ _, by rw [h'], by rw [h']⟩
      · obtain ⟨kw', h1, h2⟩ := rankLoop_source rest gc (n+1) r h'
        exact ⟨kw', List.mem_cons_of_mem _ h1, h2⟩

/-- If the input is sorted descending by the boosted key, so is the
retained output. -/
theorem rankLoop_pairwise :
    ∀ (l : List MissingKeyword) (gc n : Nat),
      l.Pairwise (fun a b => rankKey b ≤ rankKey a) →
      (rankLoop l gc n).Pairwise (fun a b =>
        b.importance_score * boost b.category ≤
          a.importance_score * boost a.category)
  | [], _, _, _ => by simp [rankLoop]
  | kw :: rest, gc, n, hp => by
    rw [List.pairwise_cons] at hp
    have hstep : ∀ (gc' n' : Nat),
        (rankLoop rest gc' n').Pairwise (fun a b =>
          b.importance_score * boost b.category ≤
            a.importance_score * boost a.category) :=
      fun gc' n' => rankLoop_pairwise rest gc' n' hp.2
    have hhead : ∀ (gc' n' m : Nat), ∀ r ∈ rankLoop rest gc' n',
        r.importance_score * boost r.category ≤
          (RankedKeyword.mk kw.term kw.importance_score kw.category kw.context
            m kw.suggestions).importance_score *
          boost (RankedKeyword.mk kw.term kw.importance_score kw.category
            kw.context m kw.suggestions).category := by
      intro gc' n' m r hr
      obtain ⟨kw', h1, h2, h3⟩ := rankLoop_source rest gc' n' r hr
      have hk := hp.1 kw' h1
      unfold rankKey at hk
      rw [h2, h3]
      exact hk
    by_cases hcat : kw.category = chars "general"
    · by_cases hgc : 2 < gc + 1
      · rw [rankLoop, if_pos hcat, if_pos hgc]
        exact hstep (gc+1) n
      · rw [rankLoop, if_pos hcat, if_neg hgc]
        rw [List.pairwise_cons]
        exact ⟨hhead (gc+1) (n+1) (n+1), hstep (gc+1) (n+1)⟩
    · rw [rankLoop, if_neg hcat]
      rw [List.pairwise_cons]
      exact ⟨hhead gc (n+1) (n+1), hstep gc (n+1)⟩

/-- C4: the output of `rank_by_importance` has at most 2 general-category
items, is sorted descending by `importance_score * boost(category)`
(technical 2.0, soft_skill 1.2, industry_specific 1.5, general 0.3), and
assigns ranks 1, 2, 3, … sequentially to the retained items. -/
theorem C4_rank_by_importance (kws : List MissingKeyword) :
    ((rank_by_importance kws).filter
        (fun r => decide (r.category = chars "general"))).length ≤ 2 ∧
    (rank_by_importance kws).Pairwise (fun a b =>
      b.importance_score * boost b.category ≤
        a.importance_score * boost a.category) ∧
    (rank_by_importance kws).map (fun r => r.rank) =
      List.range' 1 (rank_by_importance kws).length := by
  refine ⟨?_, ?_, ?_⟩
  · simpa using rankLoop_count
      (kws.mergeSort (fun a b => decide (rankKey b ≤ rankKey a))) 0 0
  · apply rankLoop_pairwise
    have hs : (kws.mergeSort (fun a b => decide (rankKey b ≤ rankKey a))).Pairwise
        (fun a b => decide (rankKey b ≤ rankKey a) = true) := by
      apply List.sorted_mergeSort
      · intro a b c hab hbc
        simp only [decide_eq_true_eq] at *
        exact le_trans hbc hab
      · intro a b
        rcases le_total (rankKey b) (rankKey a) with h | h <;> simp [h]
    exact hs.imp (fun h => of_decide_eq_true h)
  · exact rankLoop_ranks
      (kws.mergeSort (fun a b => decide (rankKey b ≤ rankKey a))) 0 0

/-! ### Claim C5 about `extract_keywords` -/

theorem ite5_some {α : Type} {c1 c2 c3 c4 c5 : Prop}
    [Decidable c1] [Decidable c2] [Decidable c3] [Decidable c4] [Decidable c5]
    {v kw : α}
    (h : (if c1 then none else if c2 then none else if c3 then none
          else if c4 then none else if c5 then none else some v) = some kw) :
    ¬c3 ∧ ¬c4 ∧ ¬c5 ∧ v = kw := by
  split at h
  · exact absurd h (by simp)
  · split at h
    · exact absurd h (by simp)
    · split at h
      · exact absurd h (by simp)
      · rename_i h3
        split at h
        · exact absurd h (by simp)
        · rename_i h4
          split at h
          · exact absurd h (by simp)
          · rename_i h5
            exact ⟨h3, h4, h5, Option.some.inj h⟩

/-- Keywords surviving the filtering loop satisfy the guard conditions of
the loop: bigrams are neither general nor of frequency 0, and
general single words have frequency at least 2. -/
theorem mem_keywordFilter {jd : List Char} {vec : List (List Char × ℚ)}
    {kw : Keyword} (h : kw ∈ keywordFilter jd vec) :
    ((splitWs kw.term).length = 2 →
      kw.category ≠ chars "general" ∧ kw.frequency ≠ 0) ∧
    ((splitWs kw.term).length = 1 → kw.category = chars "general" →
      2 ≤ kw.frequency) := by
  unfold keywordFilter at h
  rw [List.mem_filterMap] at h
  obtain ⟨ts, _, hf⟩ := h
  obtain ⟨h3, h4, h5, hkw⟩ := ite5_some hf
  subst hkw
  refine ⟨fun hw2 => ⟨fun hcg => ?_, fun hf0 => ?_⟩, fun hw1 hcg => ?_⟩
  · exact h5 ⟨hw2, hcg⟩
  · exact h3 ⟨hw2, hf0⟩
  · by_contra hlt
    push_neg at hlt
    exact h4 ⟨hcg, hw1, hlt⟩

theorem boostKeyword_fields (kw : Keyword) :
    (boostKeyword kw).term = kw.term ∧ (boostKeyword kw).frequency = kw.frequency ∧
    (boostKeyword kw).category = kw.category := by
  unfold boostKeyword
  split_ifs <;> simp

/-- C5: `extract_keywords` returns `[]` for under-10-character (stripped)
input; otherwise at most 50 keywords, sorted descending by the (possibly
boosted) tf-idf score; no two-word keyword is general or has frequency 0,
and no one-word general keyword has frequency below 2.  The vectorizer
output `vec` is universally quantified. -/
theorem C5_extract_keywords_invariants (jd : List Char)
    (vec : List (List Char × ℚ)) :
    ((stripPy jd).length < 10 → extract_keywords jd vec = []) ∧
    (extract_keywords jd vec).length ≤ 50 ∧
    (extract_keywords jd vec).Pairwise
      (fun a b => b.tfidf_score ≤ a.tfidf_score) ∧
    ∀ kw ∈ extract_keywords jd vec,
      ((splitWs kw.term).length = 2 →
        kw.category ≠ chars "general" ∧ kw.frequency ≠ 0) ∧
      ((splitWs kw.term).length = 1 → kw.category = chars "general" →
        2 ≤ kw.frequency) := by
  refine ⟨fun h => ?_, ?_, ?_, ?_⟩
  · unfold extract_keywords
    rw [if_pos (Or.inr h)]
  · unfold extract_keywords
    split_ifs
    · simp
    · exact List.length_take_le 50 _
  · unfold extract_keywords
    split_ifs
    · simp
    · have hs : (((keywordFilter jd vec).map boostKeyword).mergeSort
          (fun a b => decide (b.tfidf_score ≤ a.tfidf_score))).Pairwise
          (fun a b => decide (b.tfidf_score ≤ a.tfidf_score) = true) := by
        apply List.sorted_mergeSort
        · intro a b c hab hbc
          simp only [decide_eq_true_eq] at *
          exact le_trans hbc hab
        · intro a b
          rcases le_total b.tfidf_score a.tfidf_score with h | h <;> simp [h]
      exact (hs.imp (fun h => of_decide_eq_true h)).sublist (List.take_sublist _ _)
  · intro kw hkw
    unfold extract_keywords at hkw
    split_ifs at hkw
    · simp at hkw
    · have h1 : kw ∈ (keywordFilter jd vec).map boostKeyword :=
        List.mem_mergeSort.mp (List.take_subset 50 _ hkw)
      obtain ⟨kw₀, hkw₀, hb⟩ := List.mem_map.mp h1
      have hfields := boostKeyword_fields kw₀
      have hinv := mem_keywordFilter hkw₀
      rw [← hb, hfields.1, hfields.2.1, hfields.2.2]
      exact hinv

/-- Witness for C5: a 5-character job description yields no keywords. -/
theorem C5_witness : extract_keywords (chars "short") [] = [] :=
  (C5_extract_keywords_invariants (chars "short") []).1 (by decide)

/-! ## components/section_evaluator.py

Each concrete regular expression of the source is embedded as an
executable function that computes exactly whether `re.search` succeeds on
a given string (ASCII fragment).  Patterns whose leading groups are
optional reduce to a substring test on their mandatory core; patterns with
a mandatory `\s*` in the middle use an explicit two-part search. -/

/-- Does `w` match at position `i` of `s`? -/
def matchAt (s w : List Char) (i : Nat) : Bool := startsWith (s.drop i) w

/-- Regex word boundary `\b` at position `i` of `s` (0 ≤ i ≤ length):
exactly one of the adjacent characters is a word character. -/
def boundaryAt (s : List Char) (i : Nat) : Bool :=
  (if i = 0 then false else isWordChar (s.getD (i - 1) ' ')) !=
    (if i < s.length then isWordChar (s.getD i ' ') else false)

/-- Search for `\b pat \b`. -/
def wordSearch (pat : List Char) (s : List Char) : Bool :=
  (List.range (s.length + 1)).any fun i =>
    matchAt s pat i && boundaryAt s i && boundaryAt s (i + pat.length)

def wordAnySearch (pats : List (List Char)) (s : List Char) : Bool :=
  pats.any (fun p => wordSearch p s)

/-- Does any of `pats` occur as a substring of `l`? -/
def anySub (l : List Char) (pats : List (List Char)) : Bool :=
  pats.any (containsSub l)

/-- Does `t` start with `\s*` followed by `pat`?  (Valid when `pat` does
not start with whitespace.) -/
def wsThenStarts (t pat : List Char) : Bool :=
  startsWith (t.dropWhile isPySpace) pat

/-- Search for `a` followed by `\s*` and then one of `pats`. -/
def seqSearch (a : List Char) (pats : List (List Char)) (s : List Char) : Bool :=
  (List.range (s.length + 1)).any fun i =>
    matchAt s a i && pats.any (wsThenStarts ((s.drop i).drop a.length))

def altSeqSearch (firsts pats : List (List Char)) (s : List Char) : Bool :=
  firsts.any (fun a => seqSearch a pats s)

/-- Search for `positions?\s*held`. -/
def positionsHeldSearch (l : List Char) : Bool :=
  (List.range (l.length + 1)).any fun i =>
    matchAt l (chars "position") i &&
    (let rest := (l.drop i).drop 8
     wsThenStarts rest (chars "held") ||
       (startsWith rest (chars "s") && wsThenStarts (rest.drop 1) (chars "held")))

/-- Search for `\w+\s*:\s*\w` (a "word: content" line): some colon whose
nearest non-whitespace neighbours on both sides exist, are adjacent
through whitespace only, and are word characters. -/
def colonContentSearch (s : List Char) : Bool :=
  (List.range s.length).any fun j =>
    s.getD j ' ' == ':' &&
    (match (s.take j).reverse.dropWhile isPySpace with
     | [] => false
     | c :: _ => isWordChar c) &&
    (match (s.drop (j + 1)).dropWhile isPySpace with
     | [] => false
     | c :: _ => isWordChar c)

/-- Character classes of the email regex `[\w.+-]+@[\w.-]+\.[a-z]{2,}`. -/
def isEmailLocalChar (c : Char) : Bool := isWordChar c || c = '.' || c = '+' || c = '-'
def isEmailDomainChar (c : Char) : Bool := isWordChar c || c = '.' || c = '-'

/-- Does `t` start with `[\w.-]+\.[a-z]{2,}` (for some split)? -/
def emailDomain (t : List Char) : Bool :=
  (List.range (t.length + 1)).any fun k =>
    decide (1 ≤ k) && ((t.take k).all isEmailDomainChar) && t.getD k ' ' == '.' &&
    (t.getD (k + 1) ' ').isLower && (t.getD (k + 2) ' ').isLower

/-- Search for the email regex `[\w.+-]+@[\w.-]+\.[a-z]{2,}` (applied to
lowercased text, which also covers the `re.IGNORECASE` uses). -/
def emailSearch (s : List Char) : Bool :=
  (List.range s.length).any fun i =>
    s.getD i ' ' == '@' && decide (0 < i) && isEmailLocalChar (s.getD (i - 1) ' ') &&
    emailDomain (s.drop (i + 1))

/-- Character class `[\d\s\-().]` of the phone regexes. -/
def isPhoneChar (c : Char) : Bool :=
  c.isDigit || isPySpace c || c = '-' || c = '(' || c = ')' || c = '.'

/-- Search for `\+?\d[\d\s\-().]{7,}` (used by `_score_contact`). -/
def phoneSearchContact (s : List Char) : Bool :=
  (List.range s.length).any fun i =>
    (s.getD i ' ').isDigit && decide (i + 8 ≤ s.length) &&
    ((s.drop (i + 1)).take 7).all isPhoneChar

/-- Search for `\+?\d[\d\s\-().]{7,15}\d` (the header contact check): a
digit, then between 7 and 15 phone characters, then a digit. -/
def phoneSearchHeader (s : List Char) : Bool :=
  (List.range s.length).any fun i =>
    (s.getD i ' ').isDigit &&
    (List.range 9).any fun j =>
      decide (i + (7 + j) + 2 ≤ s.length) &&
      ((s.drop (i + 1)).take (7 + j)).all isPhoneChar &&
      (s.getD (i + (7 + j) + 1) ' ').isDigit

/-- Search for the quantification regex
`\d+%|\$[\d,]+|\d+\s*(users?|customers?|projects?|million|thousand)`
with `re.IGNORECASE` (evaluated on the lowercased text). -/
def quantSearch (content : List Char) : Bool :=
  let t := lowerStr content
  ((List.range t.length).any fun i =>
    (t.getD i ' ').isDigit && t.getD (i + 1) ' ' == '%') ||
  ((List.range t.length).any fun i =>
    t.getD i ' ' == '$' &&
      ((t.getD (i + 1) ' ').isDigit || t.getD (i + 1) ' ' == ',')) ||
  ((List.range t.length).any fun i =>
    (t.getD i ' ').isDigit &&
    (List.map chars ["user", "customer", "project", "million", "thousand"]).any
      (fun w => wsThenStarts (t.drop (i + 1)) w))

/-- Search for `\b(20\d{2}|19\d{2})\b`-style year alternatives. -/
def yearAltSearch (pre : List Char) (t : List Char) : Bool :=
  (List.range (t.length + 1)).any fun i =>
    boundaryAt t i && matchAt t pre i && (t.getD (i + 2) ' ').isDigit &&
    (t.getD (i + 3) ' ').isDigit && boundaryAt t (i + 4)

/-- Search for the experience date regex
`\b(20\d{2}|19\d{2}|jan|feb|mar|apr|may|jun|jul|aug|sep|oct|nov|dec)\b`
with `re.IGNORECASE`. -/
def dateSearch (content : List Char) : Bool :=
  let t := lowerStr content
  yearAltSearch (chars "20") t || yearAltSearch (chars "19") t ||
  wordAnySearch (List.map chars
    ["jan", "feb", "mar", "apr", "may", "jun", "jul", "aug", "sep", "oct",
     "nov", "dec"]) t

/-- Search for `(20\d{2}|19\d{2})` (no word boundaries; education). -/
def eduYearSearch (t : List Char) : Bool :=
  (List.range t.length).any fun i =>
    (startsWith (t.drop i) (chars "20") || startsWith (t.drop i) (chars "19")) &&
    (t.getD (i + 2) ' ').isDigit && (t.getD (i + 3) ' ').isDigit

/-- Character class `[a-z0-9+#.]` of the skill-token regex. -/
def isSkillChar (c : Char) : Bool :=
  c.isLower || c.isDigit || c = '+' || c = '#' || c = '.'

/-- The length (of the `{1,20}` part) of the leftmost-longest match of
`\b[a-z][a-z0-9+#.]{1,20}\b` starting at position `i`: greedy, then
backtracking until the final word boundary holds. -/
def skillMatchLen (s : List Char) (i : Nat) : Option Nat :=
  if boundaryAt s i && (s.getD i ' ').isLower then
    ((List.range 20).reverse.map (· + 1)).find? fun m =>
      decide (i + 1 + m ≤ s.length) && ((s.drop (i + 1)).take m).all isSkillChar &&
      boundaryAt s (i + 1 + m)
  else none

/-- `re.findall(r'\b[a-z][a-z0-9+#.]{1,20}\b', s)`: scan left to right,
collecting non-overlapping matches. -/
def skillTokens (s : List Char) (i : Nat) : List (List Char) :=
  if _h : i < s.length then
    match skillMatchLen s i with
    | some m => ((s.drop i).take (1 + m)) :: skillTokens s (i + 1 + m)
    | none => skillTokens s (i + 1)
  else []
termination_by s.length - i
decreasing_by
  · omega
  · omega

/-- `len(set(words))` over the skill tokens. -/
def uniqueSkillCount (content : List Char) : Nat :=
  (skillTokens content 0).dedup.length

/-- `findall(r'\n[A-Z]')` count (the pattern cannot self-overlap). -/
def countNlUpper : List Char → Nat
  | [] => 0
  | [_] => 0
  | a :: b :: rest =>
    (if a = '\n' ∧ b.isUpper then 1 else 0) + countNlUpper (b :: rest)

/-- Distinct-word overlap `len(set(a.lower().split()) & set(b.lower().split()))`. -/
def overlapCount (a b : List Char) : Nat :=
  ((splitWs (lowerStr a)).dedup.filter
    (fun w => (splitWs (lowerStr b)).contains w)).length

/-! ### SECTION_PATTERNS

One function per regex of `SECTION_PATTERNS`, computing whether
`re.search(pattern, line, re.IGNORECASE)` succeeds on the (already
lowercased) line.  A leading optional group or an optional tail never
blocks a search, so such patterns reduce to their mandatory core. -/

/-- search of `contact\s*(information|info|details)?`. -/
def patContact1 (l : List Char) : Bool := containsSub l (chars "contact")
/-- search of `personal\s*(information|info|details)?`. -/
def patContact2 (l : List Char) : Bool := containsSub l (chars "personal")
/-- search of `(phone|email|address|linkedin|github)`. -/
def patContact3 (l : List Char) : Bool :=
  anySub l (List.map chars ["phone", "email", "address", "linkedin", "github"])

/-- search of `(professional\s*)?(summary|profile|objective|overview|about)`. -/
def patSummary1 (l : List Char) : Bool :=
  anySub l (List.map chars ["summary", "profile", "objective", "overview", "about"])
/-- search of `career\s*(objective|summary|goal)`. -/
def patSummary2 (l : List Char) : Bool :=
  seqSearch (chars "career") (List.map chars ["objective", "summary", "goal"]) l

/-- search of `(technical\s*)?(skills?|competencies|expertise|technologies)`. -/
def patSkills1 (l : List Char) : Bool :=
  anySub l (List.map chars ["skill", "competencies", "expertise", "technologies"])
/-- search of `(core\s*)?competencies`. -/
def patSkills2 (l : List Char) : Bool := containsSub l (chars "competencies")
/-- search of `tools?\s*(and\s*technologies)?`. -/
def patSkills3 (l : List Char) : Bool := containsSub l (chars "tool")

/-- search of `(work|professional|relevant)?\s*(experience|history|background)`. -/
def patExp1 (l : List Char) : Bool :=
  anySub l (List.map chars ["experience", "history", "background"])
/-- search of `employment\s*(history|record)?`. -/
def patExp2 (l : List Char) : Bool := containsSub l (chars "employment")
/-- search of `(internship|internships)`. -/
def patExp3 (l : List Char) : Bool := containsSub l (chars "internship")
/-- search of `positions?\s*held`. -/
def patExp4 (l : List Char) : Bool := positionsHeldSearch l

/-- search of `education(al)?\s*(background|qualifications?)?`. -/
def patEdu1 (l : List Char) : Bool := containsSub l (chars "education")
/-- search of `academic\s*(background|qualifications?|history)?`. -/
def patEdu2 (l : List Char) : Bool := containsSub l (chars "academic")
/-- search of `(degrees?|qualifications?)`. -/
def patEdu3 (l : List Char) : Bool :=
  anySub l (List.map chars ["degree", "qualification"])
/-- search of `university|college|school`. -/
def patEdu4 (l : List Char) : Bool :=
  anySub l (List.map chars ["university", "college", "school"])

/-- search of `(personal\s*|academic\s*|key\s*)?(projects?|portfolio)`. -/
def patProj1 (l : List Char) : Bool :=
  anySub l (List.map chars ["project", "portfolio"])
/-- search of `(notable|relevant)\s*projects?`. -/
def patProj2 (l : List Char) : Bool :=
  altSeqSearch (List.map chars ["notable", "relevant"]) [chars "project"] l

/-- search of `certifications?\s*(and\s*licenses?)?`. -/
def patCert1 (l : List Char) : Bool := containsSub l (chars "certification")
/-- search of `licenses?\s*(and\s*certifications?)?`. -/
def patCert2 (l : List Char) : Bool := containsSub l (chars "license")
/-- search of `credentials?|courses?|training`. -/
def patCert3 (l : List Char) : Bool :=
  anySub l (List.map chars ["credential", "course", "training"])

/-- search of `(awards?|achievements?|accomplishments?|honors?|recognition)`. -/
def patAch1 (l : List Char) : Bool :=
  anySub l (List.map chars
    ["award", "achievement", "accomplishment", "honor", "recognition"])
/-- search of `publications?|presentations?`. -/
def patAch2 (l : List Char) : Bool :=
  anySub l (List.map chars ["publication", "presentation"])

/-- `SECTION_PATTERNS`, in source (insertion) order. -/
def SECTION_MATCHERS : List (List Char × List (List Char → Bool)) := [
  (chars "contact", [patContact1, patContact2, patContact3]),
  (chars "summary", [patSummary1, patSummary2]),
  (chars "skills", [patSkills1, patSkills2, patSkills3]),
  (chars "experience", [patExp1, patExp2, patExp3, patExp4]),
  (chars "education", [patEdu1, patEdu2, patEdu3, patEdu4]),
  (chars "projects", [patProj1, patProj2]),
  (chars "certifications", [patCert1, patCert2, patCert3]),
  (chars "achievements", [patAch1, patAch2])]

/-- The `Section` dataclass. -/
structure Section where
  name : List Char
  content : List Char
  start_idx : Nat
  end_idx : Nat
deriving DecidableEq

/-- Embedding of `SectionEvaluator._is_section_header`. -/
def is_section_header (line : List Char) (current : List Char) : Bool :=
  if 45 < line.length then false
  else if colonContentSearch line then false
  else if line.headD ' ' == '•' || line.headD ' ' == '-' || line.headD ' ' == '*' ||
      line.headD ' ' == '·' then false
  else SECTION_MATCHERS.any fun nmp =>
    !(nmp.1 == current) && nmp.2.any (fun p => p line)

/-- The window `range(i+1, min(i+50, len(lines)))` of the content loop. -/
def contentWindow (lines : List (List Char)) (i : Nat) : List (List Char) :=
  (lines.drop (i + 1)).take 49

/-- The break condition of the content loop: the next line, stripped and
lowercased, is nonempty and is a header of a different section. -/
def isBreakLine (cur : List Char) (l : List Char) : Bool :=
  !(lowerStr (stripPy l)).isEmpty && is_section_header (lowerStr (stripPy l)) cur

/-- The content lines collected under a header at line `i`. -/
def collectContent (cur : List Char) (lines : List (List Char)) (i : Nat) :
    List (List Char) :=
  (contentWindow lines i).takeWhile (fun l => !isBreakLine cur l)

/-- The `Section` built by `identify_sections` for a header at line `i`. -/
def mkSection (nm : List Char) (lines : List (List Char)) (i : Nat) : Section :=
  Section.mk nm (List.intercalate ['\n'] (collectContent nm lines i)) i
    (i + (collectContent nm lines i).length)

/-- The header-matching loop of `identify_sections`: for each line (skipping
blank lines and lines over 60 characters), each not-yet-identified section
whose patterns match the cleaned line is added, in `SECTION_PATTERNS`
order; the result keeps dict insertion order. -/
def identifyLoop (lines : List (List Char)) : List (List Char × Section) :=
  lines.enum.foldl
    (fun acc il =>
      if (lowerStr (stripPy il.2)) = [] ∨ 60 < (lowerStr (stripPy il.2)).length then acc
      else
        SECTION_MATCHERS.foldl
          (fun acc2 nmp =>
            if acc2.any (fun e => e.1 == nmp.1) then acc2
            else if nmp.2.any (fun p => p (lowerStr (stripPy il.2))) then
              acc2 ++ [(nmp.1, mkSection nmp.1 lines il.1)]
            else acc2)
          acc)
    []

/-- Embedding of `SectionEvaluator._heuristic_detection`. -/
def heuristic_detection (text : List Char) : List (List Char × Section) :=
  (if wordAnySearch (List.map chars ["email", "phone", "linkedin", "github", "@"])
      (lowerStr text) then
    [(chars "contact", Section.mk (chars "contact") (text.take 200) 0 200)]
   else []) ++
  (if wordAnySearch (List.map chars ["python", "java", "sql", "excel", "aws", "react"])
      (lowerStr text) then
    [(chars "skills", Section.mk (chars "skills") text 0 text.length)]
   else []) ++
  (if wordAnySearch (List.map chars
      ["intern", "engineer", "developer", "analyst", "manager", "worked", "responsible"])
      (lowerStr text) then
    [(chars "experience", Section.mk (chars "experience") text 0 text.length)]
   else []) ++
  (if wordAnySearch (List.map chars
      ["university", "college", "bachelor", "master", "degree", "b.tech", "m.tech",
       "bsc", "msc"]) (lowerStr text) then
    [(chars "education", Section.mk (chars "education") text 0 text.length)]
   else [])

/-- The first six lines joined, used by the header contact check. -/
def headerText (t : List Char) : List Char :=
  List.intercalate ['\n'] ((splitNl t).take 6)

/-- The header contact probe of `identify_sections`: email, phone,
`linkedin.com` or `github.com` in the first six lines (IGNORECASE). -/
def hasHeaderContact (t : List Char) : Bool :=
  emailSearch (lowerStr (headerText t)) || phoneSearchHeader (headerText t) ||
  containsSub (lowerStr (headerText t)) (chars "linkedin.com") ||
  containsSub (lowerStr (headerText t)) (chars "github.com")

/-- The `if not identified` fallback step of `identify_sections`. -/
def withFallback (text : List Char) (idd : List (List Char × Section)) :
    List (List Char × Section) :=
  if idd = [] then heuristic_detection text else idd

/-- The final contact step of `identify_sections`: if no contact section was
identified but the header lines carry contact markers, append one. -/
def addHeaderContact (text : List Char) (idd : List (List Char × Section)) :
    List (List Char × Section) :=
  if idd.any (fun e => e.1 == chars "contact") then idd
  else if hasHeaderContact text then
    idd ++ [(chars "contact", Section.mk (chars "contact") (headerText text) 0 6)]
  else idd

/-- Embedding of `SectionEvaluator.identify_sections`. -/
def identify_sections (resume_text : List Char) : List (List Char × Section) :=
  if resume_text = [] then []
  else addHeaderContact resume_text
    (withFallback resume_text (identifyLoop (splitNl resume_text)))

/-! ### Section scorers

Each scorer mirrors the source's running `score` variable and
`improvements` list; the score increments and the appended improvement
messages are tracked branch by branch. -/

/-- The `SectionScore` dataclass (scores are natural numbers in the
source; `completeness` and `relevance` are floats, kept as rationals). -/
structure SectionScore where
  section_name : List Char
  score : Nat
  present : Bool
  completeness : ℚ
  relevance : ℚ
  feedback : List Char
  improvement_areas : List (List Char)
deriving DecidableEq

/-- The `CompletenessReport` dataclass. -/
structure CompletenessReport where
  total_score : Nat
  present_sections : List (List Char)
  missing_sections : List (List Char)
  section_scores : List (List Char × SectionScore)
  overall_feedback : List Char
deriving DecidableEq

/-- Embedding of `_score_contact`.  The searched text is the stored full
resume text (`_full_resume_text`, passed here explicitly as `fullText`)
joined with the section content, lowercased. -/
def score_contact (fullText : List Char) (sec : Section)
    (_job_desc : List Char) : SectionScore :=
  let search_text := lowerStr (fullText ++ [' '] ++ sec.content)
  let s2 := if emailSearch search_text then 40 + 20 else 40
  let imp1 : List (List Char) :=
    if emailSearch search_text then [] else [chars "Add your email address."]
  let s3 := if phoneSearchContact search_text then s2 + 15 else s2
  let imp2 := if phoneSearchContact search_text then imp1
    else imp1 ++ [chars "Add your phone number."]
  let s4 := if containsSub search_text (chars "linkedin") then s3 + 15 else s3
  let imp3 := if containsSub search_text (chars "linkedin") then imp2
    else imp2 ++ [chars "Add your LinkedIn profile URL."]
  let s5 := if containsSub search_text (chars "github") then s4 + 10 else s4
  let imp4 := if containsSub search_text (chars "github") then imp3
    else imp3 ++ [chars "Consider adding your GitHub profile."]
  SectionScore.mk (chars "Contact Information") (min s5 100) true
    ((s5 : ℚ) / 100) 1
    (if 60 < s5 then chars "Contact section present."
     else chars "Contact section is incomplete.")
    imp4

/-- Embedding of `_score_summary`.  Note the source's dead branch: the
"too long" message sits in an `elif word_count > 80` that is only reached
when `word_count < 60`. -/
def score_summary (sec : Section) (job_desc : List Char) : SectionScore :=
  let word_count := (splitWs sec.content).length
  let s1 := if 30 ≤ word_count then 50 + 25 else 50
  let imp1 : List (List Char) :=
    if 30 ≤ word_count then []
    else [chars "Expand your summary to at least 3-4 sentences (30+ words)."]
  let s2 := if 60 ≤ word_count then s1 + 15 else s1
  let imp2 :=
    if 60 ≤ word_count then imp1
    else if 80 < word_count then
      imp1 ++ [chars "Summary is too long — keep it concise (under 80 words)."]
    else imp1
  let s3 := if job_desc ≠ [] ∧ 5 < overlapCount job_desc sec.content then
    s2 + 10 else s2
  SectionScore.mk (chars "Professional Summary") (min s3 100) true
    (min ((word_count : ℚ) / 50) 1) (7/10)
    (if 60 < s3 then chars "Summary present." else chars "Summary needs more detail.")
    imp2

/-- Distinct skill-token overlap with the job description words, for
`_score_skills`. -/
def skillOverlap (job_desc content : List Char) : Nat :=
  ((skillTokens content 0).dedup.filter
    (fun w => (splitWs (lowerStr job_desc)).contains w)).length

/-- Embedding of `_score_skills`. -/
def score_skills (sec : Section) (job_desc : List Char) : SectionScore :=
  let content := lowerStr sec.content
  let unique_skills := uniqueSkillCount content
  let s1 := if 5 ≤ unique_skills then 30 + 20 else 30
  let imp1 : List (List Char) :=
    if 5 ≤ unique_skills then [] else [chars "List at least 5-10 relevant skills."]
  let s2 := if 10 ≤ unique_skills then s1 + 20 else s1
  let s3 := if 15 ≤ unique_skills then s2 + 15 else s2
  let organized := anySub content
    (List.map chars ["technical", "soft", "tools", "languages", "frameworks"])
  let s4 := if organized then s3 + 15 else s3
  let imp2 := if organized then imp1
    else imp1 ++
      [chars "Consider organizing skills into categories (e.g., Technical, Tools, Soft Skills)."]
  let s5 := if job_desc ≠ [] ∧ 3 < skillOverlap job_desc content then s4 + 10 else s4
  SectionScore.mk (chars "Skills") (min s5 100) true
    (min ((unique_skills : ℚ) / 15) 1) (8/10)
    (chars "Found approximately " ++ (Nat.repr unique_skills).data ++
      chars " unique skills.")
    imp2

/-- Embedding of `_score_experience`. -/
def score_experience (sec : Section) (_job_desc : List Char) : SectionScore :=
  let content := sec.content
  let bullet_count := (content.filter (fun c => c = '•' || c = '-' || c = '*')).length
  let s1 := if 3 ≤ bullet_count then 20 + 20 else 20
  let imp1 : List (List Char) :=
    if 3 ≤ bullet_count then []
    else [chars "Use bullet points to list your responsibilities and achievements."]
  let s2 := if quantSearch content then s1 + 25 else s1
  let imp2 := if quantSearch content then imp1
    else imp1 ++
      [chars "Quantify your achievements (e.g., " ++ [apos] ++
        chars "Improved performance by 30%" ++ [apos] ++ chars ", " ++ [apos] ++
        chars "Managed team of 5" ++ [apos] ++ chars ")."]
  let verbs_found := ((List.map chars
    ["developed", "built", "led", "managed", "designed", "implemented",
     "improved", "created", "delivered", "achieved", "increased", "reduced"]).filter
    (fun v => containsSub (lowerStr content) v)).length
  let s3 := if 3 ≤ verbs_found then s2 + 20 else s2
  let imp3 := if 3 ≤ verbs_found then imp2
    else imp2 ++
      [chars "Start bullet points with strong action verbs (e.g., Developed, Led, Implemented)."]
  let s4 := if dateSearch content then s3 + 15 else s3
  let imp4 := if dateSearch content then imp3
    else imp3 ++ [chars "Include dates for each position (month/year format)."]
  SectionScore.mk (chars "Work Experience") (min s4 100) true
    (min ((bullet_count : ℚ) / 6) 1) (9/10)
    (if 50 < s4 then chars "Experience section present."
     else chars "Experience section needs improvement.")
    imp4

/-- Embedding of `_score_education`. -/
def score_education (sec : Section) (_job_desc : List Char) : SectionScore :=
  let content := lowerStr sec.content
  let hasDegree := anySub content (List.map chars
    ["bachelor", "master", "phd", "b.tech", "m.tech", "bsc", "msc", "b.e", "m.e",
     "degree", "diploma"])
  let s1 := if hasDegree then 40 + 25 else 40
  let imp1 : List (List Char) :=
    if hasDegree then []
    else [chars "Clearly state your degree (e.g., B.Tech in Computer Science)."]
  let hasInst := anySub content (List.map chars
    ["university", "college", "institute", "school"])
  let s2 := if hasInst then s1 + 20 else s1
  let imp2 := if hasInst then imp1 else imp1 ++ [chars "Include your institution name."]
  let s3 := if eduYearSearch content then s2 + 15 else s2
  let imp3 := if eduYearSearch content then imp2
    else imp2 ++ [chars "Add your graduation year."]
  let s4 := if anySub content (List.map chars ["cgpa", "gpa", "percentage", "grade"]) then
    s3 + 10 else s3
  SectionScore.mk (chars "Education") (min s4 100) true ((s4 : ℚ) / 100) (7/10)
    (if 60 < s4 then chars "Education section present."
     else chars "Education section needs more detail.")
    imp3

/-- Embedding of `_score_projects`. -/
def score_projects (sec : Section) (_job_desc : List Char) : SectionScore :=
  let content := sec.content
  let project_count := countNlUpper content
  let s1 := if 2 ≤ project_count then 40 + 20 else 40
  let imp1 : List (List Char) :=
    if 2 ≤ project_count then [] else [chars "Include at least 2-3 projects."]
  let hasLink := anySub (lowerStr content)
    (List.map chars ["github", "gitlab", "demo", "link", "url", "http"])
  let s2 := if hasLink then s1 + 20 else s1
  let imp2 := if hasLink then imp1
    else imp1 ++ [chars "Add GitHub links or demo URLs to your projects."]
  let hasVerb := wordAnySearch (List.map chars
    ["built", "developed", "created", "designed", "implemented"]) (lowerStr content)
  let s3 := if hasVerb then s2 + 20 else s2
  let imp3 := if hasVerb then imp2
    else imp2 ++ [chars "Describe what you built and the technologies used."]
  SectionScore.mk (chars "Projects") (min s3 100) true
    (min ((project_count : ℚ) / 3) 1) (8/10) (chars "Projects section present.") imp3

/-- Embedding of `_score_certifications`. -/
def score_certifications (sec : Section) (_job_desc : List Char) : SectionScore :=
  let cert_count := (sec.content.filter (fun c => c = '\n')).length + 1
  SectionScore.mk (chars "Certifications") 70 true (min ((cert_count : ℚ) / 3) 1) (6/10)
    (chars "Certifications section present. Include issuing organization and date.")
    [chars "Add the issuing organization for each certification.",
     chars "Include dates obtained."]

/-- Embedding of `_score_achievements`. -/
def score_achievements (_sec : Section) (_job_desc : List Char) : SectionScore :=
  SectionScore.mk (chars "Achievements") 75 true (8/10) (6/10)
    (chars "Achievements section present.")
    [chars "Quantify achievements where possible."]

/-- Python `str.title()` (uppercase a letter after a non-letter, lowercase
the others). -/
def titlePyAux : List Char → Bool → List Char
  | [], _ => []
  | c :: rest, prevAlpha =>
    (if c.isAlpha then (if prevAlpha then c.toLower else c.toUpper) else c) ::
      titlePyAux rest c.isAlpha

def titlePy (s : List Char) : List Char := titlePyAux s false

/-- Embedding of `_score_generic`. -/
def score_generic (sec : Section) (_job_desc : List Char) : SectionScore :=
  let word_count := (splitWs sec.content).length
  SectionScore.mk (titlePy sec.name) (min (50 + word_count / 5) 100) true
    (min ((word_count : ℚ) / 50) 1) (1/2)
    (titlePy sec.name ++ chars " section detected.") []

/-- Embedding of `SectionEvaluator.score_section`: dispatch on the
section's own name. -/
def score_section (fullText : List Char) (sec : Section)
    (job_desc : List Char) : SectionScore :=
  if sec.name = chars "contact" then score_contact fullText sec job_desc
  else if sec.name = chars "summary" then score_summary sec job_desc
  else if sec.name = chars "skills" then score_skills sec job_desc
  else if sec.name = chars "experience" then score_experience sec job_desc
  else if sec.name = chars "education" then score_education sec job_desc
  else if sec.name = chars "projects" then score_projects sec job_desc
  else if sec.name = chars "certifications" then
    score_certifications sec job_desc
  else if sec.name = chars "achievements" then
    score_achievements sec job_desc
  else score_generic sec job_desc

/-- `REQUIRED_SECTIONS` (a Python set; its iteration order is unspecified,
a fixed order is used here — the claims about `missing_sections` are
stated as membership equivalences, which do not depend on the order). -/
def REQUIRED_SECTIONS : List (List Char) :=
  List.map chars ["contact", "skills", "experience", "education"]

/-- Embedding of `SectionEvaluator.evaluate_completeness`.  The mean
`int(sum(scores) / max(len, 1))` is natural-number division (scores are
non-negative integers), and `max(0, total - penalty)` is truncated
natural subtraction. -/
def evaluate_completeness (fullText : List Char)
    (sections : List (List Char × Section)) : CompletenessReport :=
  let missing := REQUIRED_SECTIONS.filter
    (fun s => !(sections.any (fun e => e.1 == s)))
  let section_scores := sections.map (fun e => (e.1, score_section fullText e.2 []))
  let total := (section_scores.map (fun e => e.2.score)).sum /
      max section_scores.length 1 - missing.length * 10
  CompletenessReport.mk total (sections.map (fun e => e.1)) missing section_scores
    (List.intercalate [' ']
      ((if missing ≠ [] then
          [chars "Missing critical sections: " ++
            List.intercalate (chars ", ") missing ++ chars "."]
        else []) ++
       (if 80 ≤ total then [chars "Overall resume structure is strong."]
        else if 60 ≤ total then
          [chars "Resume structure is adequate but has room for improvement."]
        else [chars "Resume structure needs significant improvement."])))

/-! ### Claim C7 about `evaluate_completeness` -/

theorem score_section_le (ft : List Char) (sec : Section) (jd : List Char) :
    (score_section ft sec jd).score ≤ 100 := by
  unfold score_section
  split_ifs
  all_goals first
    | exact min_le_right _ _
    | exact (show (70:ℕ) ≤ 100 by norm_num)
    | exact (show (75:ℕ) ≤ 100 by norm_num)

theorem sum_scores_le (ft : List Char) :
    ∀ (l : List (List Char × Section)),
      ((l.map (fun e => (e.1, score_section ft e.2 []))).map
        (fun e => e.2.score)).sum ≤ 100 * l.length
  | [] => by simp
  | e :: rest => by
    simp only [List.map_cons, List.sum_cons, List.length_cons]
    have h1 := score_section_le ft e.2 []
    have h2 := sum_scores_le ft rest
    omega

/-- C7: `missing_sections` is exactly the fixed required set minus the
identified names; `total_score` is the (integer) mean of the per-section
scores minus 10 per missing section, floored at 0 (natural subtraction),
and stays within `[0, 100]`; for an empty mapping the missing set is the
full required set and the total score is 0. -/
theorem C7_evaluate_completeness (ft : List Char)
    (sections : List (List Char × Section)) :
    (∀ s : List Char,
      s ∈ (evaluate_completeness ft sections).missing_sections ↔
        s ∈ REQUIRED_SECTIONS ∧ ¬ ∃ e ∈ sections, e.1 = s) ∧
    (evaluate_completeness ft sections).total_score =
      ((evaluate_completeness ft sections).section_scores.map
          (fun e => e.2.score)).sum /
        max (evaluate_completeness ft sections).section_scores.length 1 -
        (evaluate_completeness ft sections).missing_sections.length * 10 ∧
    (evaluate_completeness ft sections).total_score ≤ 100 ∧
    ((evaluate_completeness ft []).missing_sections = REQUIRED_SECTIONS ∧
     (evaluate_completeness ft []).total_score = 0) := by
  refine ⟨?_, ?_, ?_, ?_, ?_⟩
  · intro s
    unfold evaluate_completeness
    simp only [List.mem_filter, Bool.not_eq_true', List.any_eq_false, beq_iff_eq]
    constructor
    · rintro ⟨h1, h2⟩
      exact ⟨h1, fun ⟨e, he, hes⟩ => by simpa [hes] using h2 e he⟩
    · rintro ⟨h1, h2⟩
      exact ⟨h1, fun e he hes => h2 ⟨e, he, hes⟩⟩
  · rfl
  · unfold evaluate_completeness
    simp only []
    have hsum := sum_scores_le ft sections
    have hlen : ((sections.map (fun e => (e.1, score_section ft e.2 []))).length) =
        sections.length := by simp
    have hdpos : 0 < max (sections.map
        (fun e => (e.1, score_section ft e.2 []))).length 1 :=
      lt_of_lt_of_le one_pos (le_max_right _ 1)
    have hmul : ((sections.map (fun e => (e.1, score_section ft e.2 []))).map
        (fun e => e.2.score)).sum ≤
        100 * max (sections.map (fun e => (e.1, score_section ft e.2 []))).length 1 := by
      calc _ ≤ 100 * sections.length := hsum
        _ ≤ _ := by
          apply Nat.mul_le_mul_left
          rw [hlen]
          exact le_max_left _ 1
    calc _ ≤ ((sections.map (fun e => (e.1, score_section ft e.2 []))).map
          (fun e => e.2.score)).sum /
          max (sections.map (fun e => (e.1, score_section ft e.2 []))).length 1 :=
        Nat.sub_le _ _
      _ ≤ (100 * max (sections.map
            (fun e => (e.1, score_section ft e.2 []))).length 1) /
          max (sections.map (fun e => (e.1, score_section ft e.2 []))).length 1 :=
        Nat.div_le_div_right hmul
      _ = 100 := Nat.mul_div_cancel 100 hdpos
  · rfl
  · unfold evaluate_completeness
    simp

/-! ### Claim C9 about `_score_summary` (dead "too long" branch) -/

/-- The improvement messages of `_score_summary`, characterized branch by
branch.  The "too long" message can only be appended when the word count
is simultaneously below 60 and above 80. -/
theorem score_summary_improvements (sec : Section) (jd : List Char) :
    (score_summary sec jd).improvement_areas =
      (if 30 ≤ (splitWs sec.content).length then ([] : List (List Char))
       else [chars "Expand your summary to at least 3-4 sentences (30+ words)."]) ++
      (if ¬ 60 ≤ (splitWs sec.content).length ∧ 80 < (splitWs sec.content).length then
        [chars "Summary is too long — keep it concise (under 80 words)."]
       else []) := by
  unfold score_summary
  by_cases h30 : 30 ≤ (splitWs sec.content).length <;>
    by_cases h60 : 60 ≤ (splitWs sec.content).length <;>
      by_cases h80 : 80 < (splitWs sec.content).length <;>
        simp [h30, h60, h80]

/-- A summary content of 81 words. -/
def longSummary : List Char :=
  List.intercalate [' '] (List.replicate 81 (chars "word"))

/-- C9 (code bug): `_score_summary` never emits the "too long"
improvement — the `elif word_count > 80` branch only runs when
`word_count < 60`, so it is unreachable; in particular a concrete 81-word
summary is not flagged at all (it instead receives the `+15` bonus path,
leaving the improvement list empty). -/
theorem C9_summary_too_long_flag_dead :
    (∀ (sec : Section) (jd : List Char),
      chars "Summary is too long — keep it concise (under 80 words)." ∉
        (score_summary sec jd).improvement_areas) ∧
    (80 < (splitWs longSummary).length ∧
     (score_summary (Section.mk (chars "summary") longSummary 0 0)
        []).improvement_areas = []) := by
  constructor
  · intro sec jd
    rw [score_summary_improvements]
    have hdead : ¬(¬ 60 ≤ (splitWs sec.content).length ∧
        80 < (splitWs sec.content).length) := by omega
    rw [if_neg hdead, List.append_nil]
    split_ifs
    · simp
    · simp only [List.mem_singleton]
      decide
  · refine ⟨by decide, ?_⟩
    rw [score_summary_improvements]
    rw [if_pos (by decide), if_neg (by decide)]
    rfl

/-! ### Claim C6 about `identify_sections` -/

/-- Counterexample to C6 as stated: the non-empty resume text "hello"
matches no header pattern and no fallback keyword, and
`identify_sections` returns the empty mapping. -/
theorem C6_counterexample :
    chars "hello" ≠ [] ∧ identify_sections (chars "hello") = [] := by
  constructor
  · decide
  · decide

/-- C6 (amended): `identify_sections` is non-empty whenever the header
loop or the keyword-presence fallback actually detects something; the
fallback does not fire on texts without its trigger keywords, so the
output can be empty for a non-empty resume. -/
theorem C6_identify_nonempty_of_detection (text : List Char)
    (h : identifyLoop (splitNl text) ≠ [] ∨ heuristic_detection text ≠ []) :
    identify_sections text ≠ [] := by
  have haux : ∀ (idd : List (List Char × Section)), idd ≠ [] →
      addHeaderContact text idd ≠ [] := by
    intro idd hi
    unfold addHeaderContact
    split_ifs
    · exact hi
    · simp
    · exact hi
  by_cases hx : text = []
  · subst hx
    rcases h with h | h
    · exact absurd (by decide : identifyLoop (splitNl ([] : List Char)) = []) h
    · exact absurd (by decide : heuristic_detection ([] : List Char) = []) h
  · unfold identify_sections
    rw [if_neg hx]
    apply haux
    unfold withFallback
    split_ifs with hi
    · rcases h with h | h
      · exact absurd hi h
      · exact h
    · exact hi

/-- Witness for the amended C6: the resume "python" triggers the skills
fallback, so the identified mapping is non-empty. -/
theorem C6_witness : identify_sections (chars "python") ≠ [] :=
  C6_identify_nonempty_of_detection (chars "python") (Or.inr (by decide))

end ATS
